import Mathlib

/-!
Verification of the sbwsz-mcp server (src/index.ts), a Model Context
Protocol server exposing six tools backed by the sbwsz.com HTTP API.

Modelling conventions for the shallow embedding:
* JSON values are modelled by the mutual inductive `Json`/`JsonArr`/`JsonObj`
  (JSON numbers are modelled as integers; floating point is out of scope).
* `fetch` is modelled by an environment `FetchEnv : String → Except String HttpResp`
  mapping a request URL either to a response or to a rejected promise whose
  payload is the exception message.  An `HttpResp` records, for each way the
  code may read the body (`.json()`, `.text()`, `.arrayBuffer()`), whether
  that read succeeds and with what value.
* Thrown JavaScript exceptions are modelled as `Except.error msg`.
* `JSON.stringify(v, null, 2)` and `JSON.stringify(v)` are modelled by
  `jsonStringify` / `jsonStringifyCompact`; `JSON.parse` by `jsonParse`
  (a fueled recursive-descent parser over the same `Json` type).
-/

mutual

inductive Json where
  | null : Json
  | bool : Bool → Json
  | num : Int → Json
  | str : String → Json
  | arr : JsonArr → Json
  | obj : JsonObj → Json
deriving Repr, DecidableEq

inductive JsonArr where
  | nil : JsonArr
  | cons : Json → JsonArr → JsonArr
deriving Repr, DecidableEq

inductive JsonObj where
  | nil : JsonObj
  | cons : String → Json → JsonObj → JsonObj
deriving Repr, DecidableEq

end

/-- Decimal digit character for a value below ten. -/
def digitChar (n : Nat) : Char := Char.ofNat (48 + n)

/-- Numeric value of a decimal digit character. -/
def digitVal (c : Char) : Nat := c.toNat - 48

/-- Decidable test for an ASCII decimal digit. -/
def isDigitChar (c : Char) : Bool := 48 ≤ c.toNat && c.toNat ≤ 57

/-- Lower-case hexadecimal digit character (used by string escapes). -/
def hexLower (n : Nat) : Char :=
  if n < 10 then Char.ofNat (48 + n) else Char.ofNat (87 + n)

/-- Upper-case hexadecimal digit character (used by percent-encoding). -/
def hexUpper (n : Nat) : Char :=
  if n < 10 then Char.ofNat (48 + n) else Char.ofNat (55 + n)

/-- Fueled helper for `natChars`, structurally recursive so that it reduces
definitionally. -/
def natCharsAux : Nat → Nat → List Char
  | 0, _ => []
  | fuel + 1, n =>
    if n < 10 then [digitChar n]
    else natCharsAux fuel (n / 10) ++ [digitChar (n % 10)]

/-- Decimal digit string of a natural number, most significant digit first. -/
def natChars (n : Nat) : List Char := natCharsAux (n + 1) n

theorem natCharsAux_fuel_irrel (n : Nat) : ∀ f1 f2 : Nat, n < f1 → n < f2 →
    natCharsAux f1 n = natCharsAux f2 n := by
  induction n using Nat.strong_induction_on with
  | _ n ih =>
    intro f1 f2 h1 h2
    cases f1 with
    | zero => omega
    | succ g1 =>
      cases f2 with
      | zero => omega
      | succ g2 =>
        rw [natCharsAux, natCharsAux]
        split
        · rfl
        · rename_i hn
          rw [ih (n / 10) (Nat.div_lt_self (by omega) (by omega)) g1 g2 (by omega) (by omega)]

theorem natChars_unfold (n : Nat) :
    natChars n = if n < 10 then [digitChar n] else natChars (n / 10) ++ [digitChar (n % 10)] := by
  rw [natChars, natCharsAux]
  split
  · rfl
  · rename_i hn
    rw [natCharsAux_fuel_irrel (n / 10) n (n / 10 + 1)
      (Nat.div_lt_self (by omega) (by omega)) (by omega)]
    rfl

/-- Decimal rendering of an integer (the `toString` of a JavaScript integer). -/
def intChars (n : Int) : List Char :=
  if n < 0 then '-' :: natChars n.natAbs else natChars n.natAbs

/-- `String` form of `natChars`. -/
def natToString (n : Nat) : String := String.mk (natChars n)

/-- `String` form of `intChars`. -/
def intToString (n : Int) : String := String.mk (intChars n)

/-- The escape sequence `JSON.stringify` emits for one character of a string
(ECMA-262 QuoteJSONString, restricted to Unicode scalar values). -/
def escapeChar (c : Char) : List Char :=
  if c = '"' then ['\\', '"']
  else if c = '\\' then ['\\', '\\']
  else if c = '\x08' then ['\\', 'b']
  else if c = '\x0c' then ['\\', 'f']
  else if c = '\n' then ['\\', 'n']
  else if c = '\x0d' then ['\\', 'r']
  else if c = '\t' then ['\\', 't']
  else if c.toNat < 32 then
    ['\\', 'u', '0', '0', hexLower (c.toNat / 16), hexLower (c.toNat % 16)]
  else [c]

/-- Escape every character of a string body. -/
def escapeChars : List Char → List Char
  | [] => []
  | c :: cs => escapeChar c ++ escapeChars cs

/-- A JSON string literal: quotes around the escaped body. -/
def quoteChars (s : String) : List Char := '"' :: (escapeChars s.data ++ ['"'])

/-- Indentation emitted by `JSON.stringify(v, null, 2)` at nesting depth `d`. -/
def indentChars (d : Nat) : List Char := List.replicate (2 * d) ' '

mutual

/-- Pretty rendering of a JSON value at depth `d`, exactly as
`JSON.stringify(value, null, 2)` lays it out. -/
def renderJson (d : Nat) : Json → List Char
  | .null => "null".data
  | .bool true => "true".data
  | .bool false => "false".data
  | .num n => intChars n
  | .str s => quoteChars s
  | .arr .nil => ['[', ']']
  | .arr (.cons x xs) =>
      '[' :: '\n' :: (indentChars (d + 1) ++ renderJson (d + 1) x ++
        renderArrTail (d + 1) xs ++ '\n' :: (indentChars d ++ [']']))
  | .obj .nil => ['\x7b', '\x7d']
  | .obj (.cons k v kvs) =>
      '\x7b' :: '\n' :: (indentChars (d + 1) ++ quoteChars k ++
        ':' :: ' ' :: renderJson (d + 1) v ++
        renderObjTail (d + 1) kvs ++ '\n' :: (indentChars d ++ ['\x7d']))

/-- Remaining array elements, each preceded by `",\n" ++ indent`. -/
def renderArrTail (d : Nat) : JsonArr → List Char
  | .nil => []
  | .cons x xs =>
      ',' :: '\n' :: (indentChars d ++ renderJson d x ++ renderArrTail d xs)

/-- Remaining object entries, each preceded by `",\n" ++ indent`. -/
def renderObjTail (d : Nat) : JsonObj → List Char
  | .nil => []
  | .cons k v kvs =>
      ',' :: '\n' :: (indentChars d ++ quoteChars k ++
        ':' :: ' ' :: renderJson d v ++ renderObjTail d kvs)

end

/-- `JSON.stringify(value, null, 2)`. -/
def jsonStringify (j : Json) : String := String.mk (renderJson 0 j)

mutual

/-- Compact rendering, exactly as `JSON.stringify(value)` lays it out. -/
def renderCompact : Json → List Char
  | .null => "null".data
  | .bool true => "true".data
  | .bool false => "false".data
  | .num n => intChars n
  | .str s => quoteChars s
  | .arr .nil => ['[', ']']
  | .arr (.cons x xs) => '[' :: (renderCompact x ++ renderCompactArr xs ++ [']'])
  | .obj .nil => ['\x7b', '\x7d']
  | .obj (.cons k v kvs) =>
      '\x7b' :: (quoteChars k ++ ':' :: renderCompact v ++
        renderCompactObj kvs ++ ['\x7d'])

/-- Remaining compact array elements. -/
def renderCompactArr : JsonArr → List Char
  | .nil => []
  | .cons x xs => ',' :: (renderCompact x ++ renderCompactArr xs)

/-- Remaining compact object entries. -/
def renderCompactObj : JsonObj → List Char
  | .nil => []
  | .cons k v kvs =>
      ',' :: (quoteChars k ++ ':' :: renderCompact v ++ renderCompactObj kvs)

end

/-- `JSON.stringify(value)`. -/
def jsonStringifyCompact (j : Json) : String := String.mk (renderCompact j)

/-- Whitespace characters accepted between JSON tokens. -/
def isWsChar (c : Char) : Bool := c = ' ' || c = '\n' || c = '\t' || c = '\x0d'

/-- Drop leading whitespace. -/
def skipWs : List Char → List Char
  | [] => []
  | c :: cs => if isWsChar c then skipWs cs else c :: cs

/-- Numeric value of a hexadecimal digit character, if it is one. -/
def hexVal (c : Char) : Option Nat :=
  if 48 ≤ c.toNat && c.toNat ≤ 57 then some (c.toNat - 48)
  else if 97 ≤ c.toNat && c.toNat ≤ 102 then some (c.toNat - 87)
  else if 65 ≤ c.toNat && c.toNat ≤ 70 then some (c.toNat - 55)
  else none

/-- Parse the body of a JSON string literal (the opening quote already
consumed), unescaping as `JSON.parse` does.  `acc` holds the characters read
so far in reverse.  `\uXXXX` escapes denoting surrogate code units are
rejected (surrogate-pair decoding is not modelled; `JSON.stringify` never
emits such escapes for scalar values). -/
def parseStringBody (acc : List Char) : List Char → Option (String × List Char)
  | [] => none
  | c :: cs =>
    if c = '"' then some (String.mk acc.reverse, cs)
    else if c = '\\' then
      match cs with
      | [] => none
      | e :: cs' =>
        if e = '"' then parseStringBody ('"' :: acc) cs'
        else if e = '\\' then parseStringBody ('\\' :: acc) cs'
        else if e = '/' then parseStringBody ('/' :: acc) cs'
        else if e = 'b' then parseStringBody ('\x08' :: acc) cs'
        else if e = 'f' then parseStringBody ('\x0c' :: acc) cs'
        else if e = 'n' then parseStringBody ('\n' :: acc) cs'
        else if e = 'r' then parseStringBody ('\x0d' :: acc) cs'
        else if e = 't' then parseStringBody ('\t' :: acc) cs'
        else if e = 'u' then
          match cs' with
          | h1 :: h2 :: h3 :: h4 :: cs'' =>
            match hexVal h1, hexVal h2, hexVal h3, hexVal h4 with
            | some a, some b, some c3, some c4 =>
              let n := ((a * 16 + b) * 16 + c3) * 16 + c4
              if n < 55296 then parseStringBody (Char.ofNat n :: acc) cs''
              else none
            | _, _, _, _ => none
          | _ => none
        else none
    else parseStringBody (c :: acc) cs

/-- Parse a nonempty run of decimal digits into its value. -/
def parseDigits (cs : List Char) : Option (Nat × List Char) :=
  if (cs.takeWhile isDigitChar).isEmpty then none
  else some ((cs.takeWhile isDigitChar).foldl (fun a c => a * 10 + digitVal c) 0,
    cs.dropWhile isDigitChar)

mutual

/-- Fueled recursive-descent parser for one JSON value (the model of
`JSON.parse`, restricted to integer numbers; leading-zero and
fraction/exponent handling of the full JSON grammar are not modelled). -/
def parseVal : Nat → List Char → Option (Json × List Char)
  | 0, _ => none
  | fuel + 1, cs =>
    match skipWs cs with
    | [] => none
    | c :: cs' =>
      if c = 'n' then
        match cs' with
        | 'u' :: 'l' :: 'l' :: r => some (.null, r)
        | _ => none
      else if c = 't' then
        match cs' with
        | 'r' :: 'u' :: 'e' :: r => some (.bool true, r)
        | _ => none
      else if c = 'f' then
        match cs' with
        | 'a' :: 'l' :: 's' :: 'e' :: r => some (.bool false, r)
        | _ => none
      else if c = '"' then
        match parseStringBody [] cs' with
        | some (s, r) => some (.str s, r)
        | none => none
      else if c = '[' then
        match skipWs cs' with
        | [] => none
        | c2 :: r2 =>
          if c2 = ']' then some (.arr .nil, r2)
          else
            match parseElems fuel (c2 :: r2) with
            | some (xs, r) => some (.arr xs, r)
            | none => none
      else if c = '\x7b' then
        match skipWs cs' with
        | [] => none
        | c2 :: r2 =>
          if c2 = '\x7d' then some (.obj .nil, r2)
          else
            match parseFields fuel (c2 :: r2) with
            | some (kvs, r) => some (.obj kvs, r)
            | none => none
      else if c = '-' then
        match parseDigits cs' with
        | some (n, r) => some (.num (-(n : Int)), r)
        | none => none
      else if isDigitChar c then
        match parseDigits (c :: cs') with
        | some (n, r) => some (.num (n : Int), r)
        | none => none
      else none

/-- Parse the elements of a nonempty array, up to and including `]`. -/
def parseElems : Nat → List Char → Option (JsonArr × List Char)
  | 0, _ => none
  | fuel + 1, cs =>
    match parseVal fuel cs with
    | none => none
    | some (v, r) =>
      match skipWs r with
      | [] => none
      | c :: r' =>
        if c = ',' then
          match parseElems fuel r' with
          | some (vs, r'') => some (.cons v vs, r'')
          | none => none
        else if c = ']' then some (.cons v .nil, r')
        else none

/-- Parse the entries of a nonempty object, up to and including the closing
brace. -/
def parseFields : Nat → List Char → Option (JsonObj × List Char)
  | 0, _ => none
  | fuel + 1, cs =>
    match skipWs cs with
    | [] => none
    | c :: r =>
      if c = '"' then
        match parseStringBody [] r with
        | none => none
        | some (k, r1) =>
          match skipWs r1 with
          | [] => none
          | c2 :: r2 =>
            if c2 = ':' then
              match parseVal fuel r2 with
              | none => none
              | some (v, r3) =>
                match skipWs r3 with
                | [] => none
                | c3 :: r4 =>
                  if c3 = ',' then
                    match parseFields fuel r4 with
                    | some (kvs, r5) => some (.cons k v kvs, r5)
                    | none => none
                  else if c3 = '\x7d' then some (.cons k v .nil, r4)
                  else none
            else none
      else none

end

/-- `JSON.parse`: parse a whole string as one JSON value, allowing
surrounding whitespace and nothing else. -/
def jsonParse (s : String) : Option Json :=
  match parseVal (s.data.length + 1) s.data with
  | some (j, rest) => if skipWs rest = [] then some j else none
  | none => none

/-! ### Basic character and digit lemmas -/

theorem char_toNat_ofNat (n : Nat) (h : n < 55296) : (Char.ofNat n).toNat = n := by
  have hv : Nat.isValidChar n := Or.inl h
  simp [Char.ofNat, Char.toNat, hv, Char.ofNatAux, UInt32.toNat, UInt32.ofNat']

theorem digitChar_toNat (n : Nat) (h : n < 10) : (digitChar n).toNat = 48 + n := by
  exact char_toNat_ofNat (48 + n) (by omega)

theorem digitVal_digitChar (n : Nat) (h : n < 10) : digitVal (digitChar n) = n := by
  simp [digitVal, digitChar_toNat n h]

theorem isDigitChar_digitChar (n : Nat) (h : n < 10) :
    isDigitChar (digitChar n) = true := by
  simp [isDigitChar, digitChar_toNat n h]
  omega

theorem natChars_ne_nil (n : Nat) : natChars n ≠ [] := by
  rw [natChars_unfold]
  split
  · simp
  · simp

theorem natChars_digits (n : Nat) : ∀ c ∈ natChars n, isDigitChar c = true := by
  induction n using Nat.strong_induction_on with
  | _ n ih =>
    rw [natChars_unfold]
    split
    · intro c hc
      simp at hc
      subst hc
      exact isDigitChar_digitChar n (by omega)
    · intro c hc
      simp at hc
      rcases hc with hc | hc
      · exact ih (n / 10) (Nat.div_lt_self (by omega) (by omega)) c hc
      · subst hc
        exact isDigitChar_digitChar (n % 10) (Nat.mod_lt n (by omega))

theorem foldl_natChars (n : Nat) : ∀ a : Nat,
    (natChars n).foldl (fun acc c => acc * 10 + digitVal c) a =
      a * 10 ^ (natChars n).length + n := by
  induction n using Nat.strong_induction_on with
  | _ n ih =>
    intro a
    rw [natChars_unfold]
    split
    · rename_i h
      simp [digitVal_digitChar n h]
    · rename_i h
      rw [List.foldl_append, ih (n / 10) (Nat.div_lt_self (by omega) (by omega)),
        List.length_append]
      simp only [List.foldl_cons, List.foldl_nil, List.length_singleton,
        digitVal_digitChar (n % 10) (Nat.mod_lt n (by omega))]
      have hnm : n / 10 * 10 + n % 10 = n := by omega
      calc (a * 10 ^ (natChars (n / 10)).length + n / 10) * 10 + n % 10
          = a * 10 ^ ((natChars (n / 10)).length + 1) + (n / 10 * 10 + n % 10) := by
            rw [pow_succ]; ring
        _ = a * 10 ^ ((natChars (n / 10)).length + 1) + n := by rw [hnm]

/-- The head of `cs`, if any, fails the predicate `p`. -/
def headFails (p : Char → Bool) (cs : List Char) : Prop :=
  ∀ c, cs.head? = some c → p c = false

theorem headFails_nil (p : Char → Bool) : headFails p [] := by
  intro c hc
  simp at hc

theorem takeWhile_all_append {p : Char → Bool} (xs rest : List Char)
    (h1 : ∀ c ∈ xs, p c = true) (h2 : headFails p rest) :
    (xs ++ rest).takeWhile p = xs := by
  induction xs with
  | nil =>
    cases rest with
    | nil => rfl
    | cons c t =>
      have := h2 c (by rfl)
      simp [List.takeWhile, this]
  | cons x xs ih =>
    have hx := h1 x (by simp)
    simp [List.takeWhile, hx]
    exact ih (fun c hc => h1 c (by simp [hc]))

theorem dropWhile_all_append {p : Char → Bool} (xs rest : List Char)
    (h1 : ∀ c ∈ xs, p c = true) (h2 : headFails p rest) :
    (xs ++ rest).dropWhile p = rest := by
  induction xs with
  | nil =>
    cases rest with
    | nil => rfl
    | cons c t =>
      have := h2 c (by rfl)
      simp [List.dropWhile, this]
  | cons x xs ih =>
    have hx := h1 x (by simp)
    simp [List.dropWhile, hx]
    exact ih (fun c hc => h1 c (by simp [hc]))

theorem parseDigits_natChars (n : Nat) (rest : List Char)
    (h : headFails isDigitChar rest) :
    parseDigits (natChars n ++ rest) = some (n, rest) := by
  rw [parseDigits, takeWhile_all_append _ _ (natChars_digits n) h,
    dropWhile_all_append _ _ (natChars_digits n) h]
  have hne := natChars_ne_nil n
  rw [if_neg (by simpa [List.isEmpty_iff] using hne)]
  rw [foldl_natChars n 0]
  simp

/-! ### Whitespace lemmas -/

/-- Every character of `cs` is whitespace. -/
def allWs (cs : List Char) : Prop := ∀ c ∈ cs, isWsChar c = true

theorem skipWs_ws_append (pre : List Char) (l : List Char) (h : allWs pre) :
    skipWs (pre ++ l) = skipWs l := by
  induction pre with
  | nil => rfl
  | cons c t ih =>
    have hc := h c (by simp)
    simp [skipWs, hc]
    exact ih (fun c hc => h c (by simp [hc]))

theorem skipWs_cons_not_ws (c : Char) (h : isWsChar c = false) (l : List Char) :
    skipWs (c :: l) = c :: l := by
  simp [skipWs, h]

theorem allWs_indent (d : Nat) : allWs (indentChars d) := by
  intro c hc
  simp [indentChars] at hc
  rw [hc.2]
  rfl

theorem allWs_newline_indent (d : Nat) : allWs ('\n' :: indentChars d) := by
  intro c hc
  simp at hc
  rcases hc with hc | hc
  · rw [hc]; rfl
  · exact allWs_indent d c hc

/-! ### String-escape round trip -/

theorem hexVal_hexLower (k : Nat) (h : k < 16) : hexVal (hexLower k) = some k := by
  have hall : ∀ m : Nat, m < 16 → hexVal (hexLower m) = some m := by decide
  exact hall k h

theorem parseStringBody_escape_step (c : Char) (acc X : List Char) :
    parseStringBody acc (escapeChar c ++ X) = parseStringBody (c :: acc) X := by
  rw [escapeChar]
  split
  · rename_i h1
    subst h1
    conv_lhs => rw [parseStringBody.eq_def]
    simp
  · split
    · rename_i h1 h2
      subst h2
      conv_lhs => rw [parseStringBody.eq_def]
      simp
    · split
      · rename_i h1 h2 h3
        subst h3
        conv_lhs => rw [parseStringBody.eq_def]
        simp
      · split
        · rename_i h1 h2 h3 h4
          subst h4
          conv_lhs => rw [parseStringBody.eq_def]
          simp
        · split
          · rename_i h1 h2 h3 h4 h5
            subst h5
            conv_lhs => rw [parseStringBody.eq_def]
            simp
          · split
            · rename_i h1 h2 h3 h4 h5 h6
              subst h6
              conv_lhs => rw [parseStringBody.eq_def]
              simp
            · split
              · rename_i h1 h2 h3 h4 h5 h6 h7
                subst h7
                conv_lhs => rw [parseStringBody.eq_def]
                simp
              · split
                · rename_i h1 h2 h3 h4 h5 h6 h7 h8
                  have hdiv : c.toNat / 16 < 16 := by omega
                  have hmod : c.toNat % 16 < 16 := by omega
                  have h0 : hexVal '0' = some 0 := by decide
                  have hc : c.toNat / 16 * 16 + c.toNat % 16 = c.toNat := by omega
                  have hlt : c.toNat < 55296 := by omega
                  conv_lhs => rw [parseStringBody.eq_def]
                  simp [h0, hexVal_hexLower _ hdiv, hexVal_hexLower _ hmod, hc, hlt,
                    Char.ofNat_toNat]
                · rename_i h1 h2 h3 h4 h5 h6 h7 h8
                  conv_lhs => rw [parseStringBody.eq_def]
                  simp [h1, h2]

theorem parseStringBody_escape (l : List Char) : ∀ acc rest : List Char,
    parseStringBody acc (escapeChars l ++ '"' :: rest) =
      some (String.mk (acc.reverse ++ l), rest) := by
  induction l with
  | nil =>
    intro acc rest
    conv_lhs => rw [escapeChars, List.nil_append, parseStringBody.eq_def]
    simp
  | cons c l ih =>
    intro acc rest
    rw [escapeChars, List.append_assoc, parseStringBody_escape_step, ih (c :: acc) rest]
    simp

/-! ### Parser fuel weights -/

mutual

/-- Fuel needed by `parseVal` to parse the rendering of `j`. -/
def jweight : Json → Nat
  | .null => 1
  | .bool _ => 1
  | .num _ => 1
  | .str _ => 1
  | .arr xs => 1 + aweight xs
  | .obj kvs => 1 + oweight kvs

/-- Fuel needed by `parseElems` for the rendered tail of an array. -/
def aweight : JsonArr → Nat
  | .nil => 1
  | .cons x xs => 1 + jweight x + aweight xs

/-- Fuel needed by `parseFields` for the rendered tail of an object. -/
def oweight : JsonObj → Nat
  | .nil => 1
  | .cons _ v kvs => 1 + jweight v + oweight kvs

end

theorem jweight_pos (j : Json) : 1 ≤ jweight j := by
  cases j <;> simp [jweight]

theorem aweight_pos (xs : JsonArr) : 1 ≤ aweight xs := by
  cases xs <;> simp [aweight] <;> omega

theorem oweight_pos (kvs : JsonObj) : 1 ≤ oweight kvs := by
  cases kvs <;> simp [oweight] <;> omega

/-! ### The first character of a rendering -/

theorem digit_not_ws (c : Char) (h : isDigitChar c = true) : isWsChar c = false := by
  simp [isDigitChar] at h
  simp [isWsChar]
  refine ⟨⟨⟨?_, ?_⟩, ?_⟩, ?_⟩ <;> (intro he; subst he; exact absurd h (by decide))

theorem digit_ne_rbracket (c : Char) (h : isDigitChar c = true) : c ≠ ']' := by
  simp [isDigitChar] at h
  intro he
  subst he
  exact absurd h (by decide)

theorem digit_ne_rbrace (c : Char) (h : isDigitChar c = true) : c ≠ '\x7d' := by
  simp [isDigitChar] at h
  intro he
  subst he
  exact absurd h (by decide)

theorem natChars_head (n : Nat) :
    ∃ c t, natChars n = c :: t ∧ isDigitChar c = true := by
  rcases hn : natChars n with _ | ⟨c, t⟩
  · exact absurd hn (natChars_ne_nil n)
  · exact ⟨c, t, rfl, natChars_digits n c (by rw [hn]; simp)⟩

theorem intChars_head (n : Int) :
    ∃ c t, intChars n = c :: t ∧ isWsChar c = false ∧ c ≠ ']' ∧ c ≠ '\x7d' := by
  rw [intChars]
  split
  · exact ⟨'-', natChars n.natAbs, rfl, by decide, by decide, by decide⟩
  · obtain ⟨c, t, hct, hd⟩ := natChars_head n.natAbs
    exact ⟨c, t, hct, digit_not_ws c hd, digit_ne_rbracket c hd, digit_ne_rbrace c hd⟩

/-- Packaging helper for `renderJson_head`. -/
theorem renderHead_intro (c : Char) (t l : List Char) (he : l = c :: t)
    (hcs : isWsChar c = false ∧ c ≠ ']' ∧ c ≠ '\x7d') :
    ∃ c0 t0, l = c0 :: t0 ∧ isWsChar c0 = false ∧ c0 ≠ ']' ∧ c0 ≠ '\x7d' :=
  ⟨c, t, he, hcs.1, hcs.2.1, hcs.2.2⟩

theorem renderJson_head (d : Nat) (j : Json) :
    ∃ c t, renderJson d j = c :: t ∧ isWsChar c = false ∧ c ≠ ']' ∧ c ≠ '\x7d' := by
  cases j with
  | null => exact renderHead_intro 'n' _ _ rfl (by decide)
  | bool b => cases b with
    | true => exact renderHead_intro 't' _ _ rfl (by decide)
    | false => exact renderHead_intro 'f' _ _ rfl (by decide)
  | num n =>
    obtain ⟨c, t, hct, h1, h2, h3⟩ := intChars_head n
    exact renderHead_intro c t _ (by rw [renderJson, hct]) ⟨h1, h2, h3⟩
  | str s =>
    exact renderHead_intro '"' _ _ (by rw [renderJson, quoteChars]) (by decide)
  | arr xs => cases xs with
    | nil => exact renderHead_intro '[' _ _ rfl (by decide)
    | cons x xs => exact renderHead_intro '[' _ _ rfl (by decide)
  | obj kvs => cases kvs with
    | nil => exact renderHead_intro '\x7b' _ _ rfl (by decide)
    | cons k v kvs => exact renderHead_intro '\x7b' _ _ rfl (by decide)

theorem digit_ne (c d : Char) (hc : isDigitChar c = true) (hd : isDigitChar d = false) :
    c ≠ d := by
  intro he
  subst he
  rw [hc] at hd
  cases hd

set_option maxHeartbeats 1600000

theorem allWs_nil : allWs [] := by
  intro c hc
  simp at hc

theorem allWs_single_space : allWs [' '] := by
  intro c hc
  simp at hc
  rw [hc]
  rfl

theorem String_mk_data (s : String) : String.mk s.data = s := rfl

theorem skipWs_nl_indent_append (d : Nat) (c : Char) (h : isWsChar c = false)
    (t : List Char) :
    skipWs ('\n' :: (indentChars d ++ (c :: t))) = c :: t := by
  rw [show '\n' :: (indentChars d ++ (c :: t)) =
      ('\n' :: indentChars d) ++ (c :: t) from rfl,
    skipWs_ws_append _ _ (allWs_newline_indent d), skipWs_cons_not_ws c h]

mutual

theorem parseVal_render (j : Json) : ∀ (d : Nat) (pre rest : List Char) (fuel : Nat),
    allWs pre → jweight j ≤ fuel → headFails isDigitChar rest →
    parseVal fuel (pre ++ (renderJson d j ++ rest)) = some (j, rest) := by
  intro d pre rest fuel hpre hw hrest
  cases fuel with
  | zero =>
    have := jweight_pos j
    omega
  | succ f =>
    rw [parseVal.eq_2, skipWs_ws_append _ _ hpre]
    cases j with
    | null =>
      rw [show renderJson d Json.null ++ rest = 'n' :: 'u' :: 'l' :: 'l' :: rest from rfl,
        skipWs_cons_not_ws _ (by decide)]
      simp
    | bool b =>
      cases b with
      | true =>
        rw [show renderJson d (Json.bool true) ++ rest = 't' :: 'r' :: 'u' :: 'e' :: rest from rfl,
          skipWs_cons_not_ws _ (by decide)]
        simp
      | false =>
        rw [show renderJson d (Json.bool false) ++ rest = 'f' :: 'a' :: 'l' :: 's' :: 'e' :: rest from rfl,
          skipWs_cons_not_ws _ (by decide)]
        simp
    | num n =>
      rw [show renderJson d (Json.num n) = intChars n from rfl, intChars]
      by_cases hn : n < 0
      · rw [if_pos hn, List.cons_append, skipWs_cons_not_ws _ (by decide)]
        simp [parseDigits_natChars _ _ hrest, abs_of_neg hn]
      · rw [if_neg hn]
        obtain ⟨c, t, hct, hd⟩ := natChars_head n.natAbs
        have habs : ((n.natAbs : Int)) = n := by omega
        have hre : c :: (t ++ rest) = natChars n.natAbs ++ rest := by
          rw [hct, List.cons_append]
        rw [hct, List.cons_append, skipWs_cons_not_ws _ (digit_not_ws c hd)]
        simp [digit_ne c 'n' hd (by decide), digit_ne c 't' hd (by decide),
          digit_ne c 'f' hd (by decide), digit_ne c '"' hd (by decide),
          digit_ne c '[' hd (by decide), digit_ne c '\x7b' hd (by decide),
          digit_ne c '-' hd (by decide), hd, hre,
          parseDigits_natChars _ _ hrest, habs]
    | str s =>
      rw [show renderJson d (Json.str s) ++ rest =
          '"' :: (escapeChars s.data ++ '"' :: rest) by
          simp [renderJson, quoteChars],
        skipWs_cons_not_ws _ (by decide)]
      simp [parseStringBody_escape]
    | arr xs =>
      cases xs with
      | nil =>
        rw [show renderJson d (Json.arr JsonArr.nil) ++ rest = '[' :: ']' :: rest from rfl,
          skipWs_cons_not_ws _ (by decide)]
        simp [skipWs_cons_not_ws ']' (by decide)]
      | cons x xs =>
        rw [show renderJson d (Json.arr (JsonArr.cons x xs)) ++ rest =
            '[' :: ('\n' :: (indentChars (d+1) ++ (renderJson (d+1) x ++
              (renderArrTail (d+1) xs ++ ('\n' :: (indentChars d ++ (']' :: rest))))))) by
            simp [renderJson, List.append_assoc],
          skipWs_cons_not_ws _ (by decide)]
        obtain ⟨c0, t0, hct0, hws0, hbr0, hbc0⟩ := renderJson_head (d+1) x
        have hskip : skipWs ('\n' :: (indentChars (d+1) ++ (renderJson (d+1) x ++
            (renderArrTail (d+1) xs ++ ('\n' :: (indentChars d ++ (']' :: rest))))))) =
            c0 :: (t0 ++ (renderArrTail (d+1) xs ++ ('\n' :: (indentChars d ++ (']' :: rest))))) := by
          rw [hct0, List.cons_append]
          exact skipWs_nl_indent_append (d+1) c0 hws0 _
        have helems := parseElems_render x xs (d+1) [] d rest f allWs_nil
          (by simp [jweight, aweight] at hw ⊢; omega)
        simp only [List.nil_append] at helems
        have helems2 : parseElems f (c0 :: (t0 ++ (renderArrTail (d+1) xs ++
            ('\n' :: (indentChars d ++ (']' :: rest)))))) =
            some (JsonArr.cons x xs, rest) := by
          rw [show c0 :: (t0 ++ (renderArrTail (d+1) xs ++
              ('\n' :: (indentChars d ++ (']' :: rest))))) =
              renderJson (d+1) x ++ (renderArrTail (d+1) xs ++
                ('\n' :: (indentChars d ++ (']' :: rest)))) by
            rw [hct0, List.cons_append]]
          exact helems
        simp [hskip, hbr0, helems2]
    | obj kvs =>
      cases kvs with
      | nil =>
        rw [show renderJson d (Json.obj JsonObj.nil) ++ rest = '\x7b' :: '\x7d' :: rest from rfl,
          skipWs_cons_not_ws _ (by decide)]
        simp [skipWs_cons_not_ws '\x7d' (by decide)]
      | cons k v kvs =>
        rw [show renderJson d (Json.obj (JsonObj.cons k v kvs)) ++ rest =
            '\x7b' :: ('\n' :: (indentChars (d+1) ++ ('"' :: (escapeChars k.data ++
              ('"' :: (':' :: ' ' :: (renderJson (d+1) v ++
              (renderObjTail (d+1) kvs ++ ('\n' :: (indentChars d ++ ('\x7d' :: rest))))))))))) by
            simp [renderJson, quoteChars, List.append_assoc],
          skipWs_cons_not_ws _ (by decide)]
        have hskip : skipWs ('\n' :: (indentChars (d+1) ++ ('"' :: (escapeChars k.data ++
            ('"' :: (':' :: ' ' :: (renderJson (d+1) v ++
            (renderObjTail (d+1) kvs ++ ('\n' :: (indentChars d ++ ('\x7d' :: rest))))))))))) =
            '"' :: (escapeChars k.data ++
            ('"' :: (':' :: ' ' :: (renderJson (d+1) v ++
            (renderObjTail (d+1) kvs ++ ('\n' :: (indentChars d ++ ('\x7d' :: rest)))))))) := by
          rw [show '\n' :: (indentChars (d+1) ++ ('"' :: (escapeChars k.data ++
              ('"' :: (':' :: ' ' :: (renderJson (d+1) v ++
              (renderObjTail (d+1) kvs ++ ('\n' :: (indentChars d ++ ('\x7d' :: rest)))))))))) =
              ('\n' :: indentChars (d+1)) ++ ('"' :: (escapeChars k.data ++
              ('"' :: (':' :: ' ' :: (renderJson (d+1) v ++
              (renderObjTail (d+1) kvs ++ ('\n' :: (indentChars d ++ ('\x7d' :: rest))))))))) from rfl,
            skipWs_ws_append _ _ (allWs_newline_indent (d+1)),
            skipWs_cons_not_ws _ (by decide)]
        have hfields := parseFields_render k v kvs (d+1) [] d rest f allWs_nil
          (by simp [jweight, oweight] at hw ⊢; omega)
        simp only [List.nil_append] at hfields
        have hfields2 : parseFields f ('"' :: (escapeChars k.data ++
            ('"' :: (':' :: ' ' :: (renderJson (d+1) v ++
            (renderObjTail (d+1) kvs ++ ('\n' :: (indentChars d ++ ('\x7d' :: rest))))))))) =
            some (JsonObj.cons k v kvs, rest) := by
          rw [show ('"' : Char) :: (escapeChars k.data ++
              ('"' :: (':' :: ' ' :: (renderJson (d+1) v ++
              (renderObjTail (d+1) kvs ++ ('\n' :: (indentChars d ++ ('\x7d' :: rest)))))))) =
              quoteChars k ++ (':' :: ' ' :: (renderJson (d+1) v ++
              (renderObjTail (d+1) kvs ++ ('\n' :: (indentChars d ++ ('\x7d' :: rest)))))) by
            simp [quoteChars, List.append_assoc]]
          exact hfields
        simp [hskip, hfields2]
termination_by sizeOf j

theorem parseElems_render (x : Json) (xs : JsonArr) :
    ∀ (d : Nat) (pre : List Char) (dc : Nat) (rest : List Char) (fuel : Nat),
    allWs pre → aweight (JsonArr.cons x xs) ≤ fuel →
    parseElems fuel (pre ++ (renderJson d x ++ (renderArrTail d xs ++
      ('\n' :: (indentChars dc ++ (']' :: rest)))))) = some (JsonArr.cons x xs, rest) := by
  intro d pre dc rest fuel hpre hw
  cases fuel with
  | zero =>
    simp [aweight] at hw
  | succ f =>
    rw [parseElems.eq_2]
    have hhead : headFails isDigitChar (renderArrTail d xs ++
        ('\n' :: (indentChars dc ++ (']' :: rest)))) := by
      cases xs with
      | nil =>
        intro c hc
        simp [renderArrTail] at hc
        rw [← hc]
        rfl
      | cons x' xs' =>
        intro c hc
        simp [renderArrTail] at hc
        rw [← hc]
        rfl
    have hx := parseVal_render x d pre (renderArrTail d xs ++
        ('\n' :: (indentChars dc ++ (']' :: rest)))) f hpre
      (by simp [aweight] at hw; have := aweight_pos xs; omega) hhead
    rw [hx]
    cases xs with
    | nil =>
      simp [renderArrTail, skipWs_nl_indent_append dc ']' (by decide)]
    | cons x' xs' =>
      have htail := parseElems_render x' xs' d ('\n' :: indentChars d) dc rest f
        (allWs_newline_indent d)
        (by simp [aweight] at hw ⊢; have := jweight_pos x; omega)
      simp only [List.cons_append, List.append_assoc] at htail
      simp [renderArrTail, skipWs_cons_not_ws ',' (by decide), htail]
termination_by 1 + sizeOf x + sizeOf xs

theorem parseFields_render (k : String) (v : Json) (kvs : JsonObj) :
    ∀ (d : Nat) (pre : List Char) (dc : Nat) (rest : List Char) (fuel : Nat),
    allWs pre → oweight (JsonObj.cons k v kvs) ≤ fuel →
    parseFields fuel (pre ++ (quoteChars k ++ (':' :: ' ' :: (renderJson d v ++
      (renderObjTail d kvs ++ ('\n' :: (indentChars dc ++ ('\x7d' :: rest)))))))) =
      some (JsonObj.cons k v kvs, rest) := by
  intro d pre dc rest fuel hpre hw
  cases fuel with
  | zero =>
    simp [oweight] at hw
  | succ f =>
    rw [parseFields.eq_2, skipWs_ws_append _ _ hpre,
      show quoteChars k ++ (':' :: ' ' :: (renderJson d v ++
        (renderObjTail d kvs ++ ('\n' :: (indentChars dc ++ ('\x7d' :: rest)))))) =
        '"' :: (escapeChars k.data ++ ('"' :: (':' :: ' ' :: (renderJson d v ++
        (renderObjTail d kvs ++ ('\n' :: (indentChars dc ++ ('\x7d' :: rest)))))))) by
        simp [quoteChars, List.append_assoc],
      skipWs_cons_not_ws _ (by decide)]
    have hhead : headFails isDigitChar (renderObjTail d kvs ++
        ('\n' :: (indentChars dc ++ ('\x7d' :: rest)))) := by
      cases kvs with
      | nil =>
        intro c hc
        simp [renderObjTail] at hc
        rw [← hc]
        rfl
      | cons k' v' kvs' =>
        intro c hc
        simp [renderObjTail] at hc
        rw [← hc]
        rfl
    have hv := parseVal_render v d [' '] (renderObjTail d kvs ++
        ('\n' :: (indentChars dc ++ ('\x7d' :: rest)))) f allWs_single_space
      (by simp [oweight] at hw; have := oweight_pos kvs; omega) hhead
    simp only [List.singleton_append] at hv
    cases kvs with
    | nil =>
      simp only [renderObjTail, List.nil_append] at hv
      simp [parseStringBody_escape, skipWs_cons_not_ws ':' (by decide), hv,
        renderObjTail, String_mk_data, skipWs_nl_indent_append dc '\x7d' (by decide)]
    | cons k' v' kvs' =>
      simp only [renderObjTail, quoteChars, List.cons_append, List.append_assoc,
        List.nil_append] at hv
      have htail := parseFields_render k' v' kvs' d ('\n' :: indentChars d) dc rest f
        (allWs_newline_indent d)
        (by simp [oweight] at hw ⊢; have := jweight_pos v; omega)
      simp only [quoteChars, List.cons_append, List.append_assoc, List.nil_append] at htail
      simp [parseStringBody_escape, skipWs_cons_not_ws ':' (by decide), hv,
        renderObjTail, quoteChars, String_mk_data, skipWs_cons_not_ws ',' (by decide), htail]
termination_by 1 + sizeOf v + sizeOf kvs

end

mutual

theorem jweight_le_render (j : Json) : ∀ d : Nat, jweight j ≤ (renderJson d j).length := by
  intro d
  cases j with
  | null => simp [jweight, renderJson]
  | bool b => cases b <;> simp [jweight, renderJson]
  | num n =>
    have h1 : 1 ≤ (intChars n).length := by
      rw [intChars]
      split
      · simp
      · rcases hn : natChars n.natAbs with _ | ⟨c, t⟩
        · exact absurd hn (natChars_ne_nil _)
        · simp
    simpa [jweight, renderJson] using h1
  | str s => simp [jweight, renderJson, quoteChars]
  | arr xs =>
    cases xs with
    | nil => simp [jweight, aweight, renderJson]
    | cons x xs =>
      have h1 := jweight_le_render x (d + 1)
      have h2 := aweight_le_render xs (d + 1)
      simp [jweight, aweight, renderJson]
      omega
  | obj kvs =>
    cases kvs with
    | nil => simp [jweight, oweight, renderJson]
    | cons k v kvs =>
      have h1 := jweight_le_render v (d + 1)
      have h2 := oweight_le_render kvs (d + 1)
      simp [jweight, oweight, renderJson, quoteChars]
      omega
termination_by sizeOf j

theorem aweight_le_render (xs : JsonArr) :
    ∀ d : Nat, aweight xs ≤ (renderArrTail d xs).length + 2 := by
  intro d
  cases xs with
  | nil => simp [aweight, renderArrTail]
  | cons x xs =>
    have h1 := jweight_le_render x d
    have h2 := aweight_le_render xs d
    simp [aweight, renderArrTail]
    omega
termination_by sizeOf xs

theorem oweight_le_render (kvs : JsonObj) :
    ∀ d : Nat, oweight kvs ≤ (renderObjTail d kvs).length + 2 := by
  intro d
  cases kvs with
  | nil => simp [oweight, renderObjTail]
  | cons k v kvs =>
    have h1 := jweight_le_render v d
    have h2 := oweight_le_render kvs d
    simp [oweight, renderObjTail, quoteChars]
    omega
termination_by sizeOf kvs

end

/-- Round trip: parsing the pretty-printed rendering of any JSON value
recovers the value exactly. -/
theorem jsonParse_stringify (j : Json) : jsonParse (jsonStringify j) = some j := by
  rw [jsonParse, jsonStringify]
  have hfuel : jweight j ≤ (renderJson 0 j).length + 1 :=
    le_trans (jweight_le_render j 0) (by omega)
  have h := parseVal_render j 0 [] [] ((renderJson 0 j).length + 1) allWs_nil hfuel
    (headFails_nil _)
  simp only [List.nil_append, List.append_nil] at h
  rw [show (String.mk (renderJson 0 j)).data = renderJson 0 j from rfl, h]
  simp [skipWs]

/-! ### JavaScript value coercions -/

/-- JavaScript truthiness of a JSON value (`null`, `false`, `0` and `""` are
falsy; arrays and objects are truthy). -/
def jsonTruthy : Json → Bool
  | .null => false
  | .bool b => b
  | .num n => n != 0
  | .str s => s ≠ ""
  | .arr _ => true
  | .obj _ => true

mutual

/-- JavaScript string coercion of a JSON value, as a template literal
interpolation performs it (`String(v)`). -/
def jsToString : Json → String
  | .null => "null"
  | .bool true => "true"
  | .bool false => "false"
  | .num n => intToString n
  | .str s => s
  | .arr xs => jsArrJoin xs
  | .obj _ => "[object Object]"

/-- `Array.prototype.join(",")`: elements stringified, `null` as empty. -/
def jsArrJoin : JsonArr → String
  | .nil => ""
  | .cons x xs =>
    (match x with
     | .null => ""
     | y => jsToString y) ++
    (match xs with
     | .nil => ""
     | ys => "," ++ jsArrJoin ys)

end

/-- Lookup in an object's entry list, last occurrence winning (as after
`JSON.parse`). -/
def jsMemberObj : JsonObj → String → Option Json
  | .nil, _ => none
  | .cons k v kvs, key =>
    match jsMemberObj kvs key with
    | some r => some r
    | none => if k = key then some v else none

/-- Property access `obj.key` on a JSON value: `some` the field value for an
object that has the key, otherwise `none` (JavaScript `undefined`). -/
def jsMember : Json → String → Option Json
  | .obj kvs, key => jsMemberObj kvs key
  | _, _ => none

/-! ### `encodeURIComponent`, form encoding, upper-casing, base64 -/

/-- Characters `encodeURIComponent` leaves unescaped:
`A-Z a-z 0-9 - _ . ! ~ * ' ( )`. -/
def uriUnreservedChar (c : Char) : Bool :=
  (65 ≤ c.toNat && c.toNat ≤ 90) || (97 ≤ c.toNat && c.toNat ≤ 122) ||
  (48 ≤ c.toNat && c.toNat ≤ 57) ||
  c.toNat = 45 || c.toNat = 95 || c.toNat = 46 || c.toNat = 33 ||
  c.toNat = 126 || c.toNat = 42 || c.toNat = 39 || c.toNat = 40 || c.toNat = 41

/-- UTF-8 bytes of a Unicode scalar value. -/
def utf8Bytes (n : Nat) : List Nat :=
  if n < 128 then [n]
  else if n < 2048 then [192 + n / 64, 128 + n % 64]
  else if n < 65536 then [224 + n / 4096, 128 + n / 64 % 64, 128 + n % 64]
  else [240 + n / 262144, 128 + n / 4096 % 64, 128 + n / 64 % 64, 128 + n % 64]

/-- `%XY` percent-escape of one byte, upper-case hex. -/
def percentByte (b : Nat) : List Char := ['%', hexUpper (b / 16), hexUpper (b % 16)]

/-- Percent-escape the UTF-8 bytes of one character. -/
def percentChar (c : Char) : List Char :=
  ((utf8Bytes c.toNat).map percentByte).flatten

/-- One character of `encodeURIComponent` output. -/
def encChar (c : Char) : List Char :=
  if uriUnreservedChar c then [c] else percentChar c

/-- `encodeURIComponent` over a character list. -/
def encodeChars : List Char → List Char
  | [] => []
  | c :: cs => encChar c ++ encodeChars cs

/-- `encodeURIComponent`. -/
def encodeURIComponent (s : String) : String := String.mk (encodeChars s.data)

/-- Characters `URLSearchParams` serialization leaves unescaped:
`A-Z a-z 0-9 * - . _` (space becomes `+`). -/
def formUnreservedChar (c : Char) : Bool :=
  (65 ≤ c.toNat && c.toNat ≤ 90) || (97 ≤ c.toNat && c.toNat ≤ 122) ||
  (48 ≤ c.toNat && c.toNat ≤ 57) ||
  c.toNat = 42 || c.toNat = 45 || c.toNat = 46 || c.toNat = 95

/-- One character of `application/x-www-form-urlencoded` output. -/
def formChar (c : Char) : List Char :=
  if formUnreservedChar c then [c]
  else if c = ' ' then ['+']
  else percentChar c

/-- Form encoding over a character list. -/
def formEncodeChars : List Char → List Char
  | [] => []
  | c :: cs => formChar c ++ formEncodeChars cs

/-- The encoding `URLSearchParams.toString` applies to names and values. -/
def formEncode (s : String) : String := String.mk (formEncodeChars s.data)

/-- `URLSearchParams.toString()`: `name=value` pairs joined by `&`, both
form-encoded. -/
def urlSearchParamsToString : List (String × String) → String
  | [] => ""
  | [(k, v)] => formEncode k ++ "=" ++ formEncode v
  | (k, v) :: rest => formEncode k ++ "=" ++ formEncode v ++ "&" ++
      urlSearchParamsToString rest

/-- ASCII upper-casing of one character, as `String.prototype.toUpperCase`
acts on ASCII letters (non-ASCII case mapping is out of scope for the set
codes this server handles). -/
def jsUpperChar (c : Char) : Char :=
  if 97 ≤ c.toNat && c.toNat ≤ 122 then Char.ofNat (c.toNat - 32) else c

/-- `String.prototype.toUpperCase` (ASCII model). -/
def jsToUpperCase (s : String) : String := String.mk (s.data.map jsUpperChar)

/-- One base64 alphabet character. -/
def base64Char (n : Nat) : Char :=
  if n < 26 then Char.ofNat (65 + n)
  else if n < 52 then Char.ofNat (97 + (n - 26))
  else if n < 62 then Char.ofNat (48 + (n - 52))
  else if n = 62 then '+' else '/'

/-- Standard base64 with padding over a byte list
(`Buffer.prototype.toString('base64')`). -/
def base64Chars : List Nat → List Char
  | [] => []
  | [b1] => [base64Char (b1 / 4), base64Char (b1 % 4 * 16), '=', '=']
  | [b1, b2] => [base64Char (b1 / 4), base64Char (b1 % 4 * 16 + b2 / 16),
      base64Char (b2 % 16 * 4), '=']
  | b1 :: b2 :: b3 :: rest =>
      base64Char (b1 / 4) :: base64Char (b1 % 4 * 16 + b2 / 16) ::
      base64Char (b2 % 16 * 4 + b3 / 64) :: base64Char (b3 % 64) ::
      base64Chars rest

/-- `Buffer.from(bytes).toString('base64')`. -/
def base64Encode (bs : List Nat) : String := String.mk (base64Chars bs)

/-! ### MCP data model (src/index.ts) -/

/-- One item of a tool result's `content` array. -/
inductive ContentItem where
  | text : String → ContentItem
  | image : (data : String) → (mimeType : String) → ContentItem
deriving Repr, DecidableEq

/-- The result shape every tool handler returns. -/
structure ToolCallResult where
  content : List ContentItem
  isError : Bool
deriving Repr, DecidableEq

/-- A decoded call-tool request: tool name and the `arguments` object. -/
structure ToolCallRequest where
  name : String
  arguments : List (String × Json)

/-- What one HTTP response offers to the code: status line data and, for each
body-reading method the handlers use (`.json()`, `.text()`, `.arrayBuffer()`),
either the value read or the message of the exception that read would throw.
`contentType` is `headers.get('content-type')` (`none` when absent). -/
structure HttpResp where
  status : Nat
  statusText : String
  jsonBody : Except String Json
  textBody : Except String String
  bytesBody : Except String (List Nat)
  contentType : Option String

/-- `response.ok`: status in the 2xx range. -/
def HttpResp.isOk (r : HttpResp) : Bool := 200 ≤ r.status && r.status < 300

/-- The network: maps a request URL to a response, or to the message of the
exception with which `fetch` rejects. -/
def FetchEnv : Type := String → Except String HttpResp

/-- `BASE_URL` from src/index.ts. -/
def BASE_URL : String := "https://www.sbwsz.com/api/v1"

/-- The six registered tool names, in registration order (src/index.ts,
`SBWSZ_TOOLS`). -/
def sbwszToolNames : List String :=
  ["get_card_by_set_and_number", "search_cards", "get_sets", "get_set",
   "get_set_cards", "hzls"]

/-- The `errorObj && errorObj.message` test of `handleSbwszResponse`: the
parsed error body when parsing succeeded, the body is truthy, and its
`message` member is truthy. -/
def truthyMessage : Except String Json → Option Json
  | .error _ => none
  | .ok j =>
    if jsonTruthy j then
      match jsMember j "message" with
      | some m => if jsonTruthy m then some m else none
      | none => none
    else none

/-- `handleSbwszResponse` (src/index.ts:256-300): shared mapping from an HTTP
response to a tool result.  On a non-2xx status a JSON body with a truthy
`message` member yields the remote message plus status; otherwise the raw
status line; on 2xx the JSON body is re-emitted pretty-printed (a body-parse
exception propagates to the caller). -/
def handleSbwszResponse (r : HttpResp) : Except String ToolCallResult :=
  if r.isOk = false then
    match truthyMessage r.jsonBody with
    | some m =>
      .ok ⟨[.text ("SBWSZ API 错误: " ++ jsToString m ++ " (状态码: " ++
        natToString r.status ++ ")")], true⟩
    | none =>
      .ok ⟨[.text ("HTTP 错误 " ++ natToString r.status ++ ": " ++ r.statusText)], true⟩
  else
    match r.jsonBody with
    | .ok data => .ok ⟨[.text (jsonStringify data)], false⟩
    | .error e => .error e

/-- The URL `handleGetCardBySetAndNumber` fetches (src/index.ts:304). -/
def getCardUrl (set collectorNumber : String) : String :=
  BASE_URL ++ "/card/" ++ encodeURIComponent set ++ "/" ++
    encodeURIComponent collectorNumber

/-- `handleGetCardBySetAndNumber` (src/index.ts:303-307). -/
def handleGetCardBySetAndNumber (set collectorNumber : String) (env : FetchEnv) :
    Except String ToolCallResult :=
  match env (getCardUrl set collectorNumber) with
  | .ok r => handleSbwszResponse r
  | .error e => .error e

/-- The URL `handleSearchCards` builds (src/index.ts:318-326): `q` mandatory
and URI-encoded; each optional appended only when present; `order` and
`unique` URI-encoded, `page`, `page_size` and `priority_chinese` interpolated
verbatim. -/
def searchCardsUrl (q : String) (page pageSize : Option Int)
    (order unique : Option String) (priorityChinese : Option Bool) : String :=
  BASE_URL ++ "/result?q=" ++ encodeURIComponent q
  ++ (match page with
      | some p => "&page=" ++ intToString p
      | none => "")
  ++ (match pageSize with
      | some p => "&page_size=" ++ intToString p
      | none => "")
  ++ (match order with
      | some o => "&order=" ++ encodeURIComponent o
      | none => "")
  ++ (match unique with
      | some u => "&unique=" ++ encodeURIComponent u
      | none => "")
  ++ (match priorityChinese with
      | some b => "&priority_chinese=" ++ (if b then "true" else "false")
      | none => "")

/-- `handleSearchCards` (src/index.ts:310-330). -/
def handleSearchCards (q : String) (page pageSize : Option Int)
    (order unique : Option String) (priorityChinese : Option Bool)
    (env : FetchEnv) : Except String ToolCallResult :=
  match env (searchCardsUrl q page pageSize order unique priorityChinese) with
  | .ok r => handleSbwszResponse r
  | .error e => .error e

/-- The URL `handleGetSets` fetches (src/index.ts:334). -/
def getSetsUrl : String := BASE_URL ++ "/sets"

/-- `handleGetSets` (src/index.ts:333-337). -/
def handleGetSets (env : FetchEnv) : Except String ToolCallResult :=
  match env getSetsUrl with
  | .ok r => handleSbwszResponse r
  | .error e => .error e

/-- The URL `handleGetSet` fetches (src/index.ts:250): the set code is
upper-cased, then URI-escaped into the path. -/
def getSetUrl (setCode : String) : String :=
  BASE_URL ++ "/set/" ++ encodeURIComponent (jsToUpperCase setCode)

/-- `handleGetSet` (src/index.ts:249-253). -/
def handleGetSet (setCode : String) (env : FetchEnv) : Except String ToolCallResult :=
  match env (getSetUrl setCode) with
  | .ok r => handleSbwszResponse r
  | .error e => .error e

/-- The query-parameter list `handleGetSetCards` appends to its
`URLSearchParams` (src/index.ts:351-355), in append order. -/
def getSetCardsParams (page pageSize : Option Int) (order : Option String)
    (priorityChinese : Option Bool) : List (String × String) :=
  (match page with
   | some p => [("page", intToString p)]
   | none => [])
  ++ (match pageSize with
      | some p => [("page_size", intToString p)]
      | none => [])
  ++ (match order with
      | some o => [("order", o)]
      | none => [])
  ++ (match priorityChinese with
      | some b => [("priority_chinese", if b then "true" else "false")]
      | none => [])

/-- The URL `handleGetSetCards` fetches (src/index.ts:347-361): upper-cased,
URI-escaped set code in the path; the query string appended only when the
serialized parameter list is nonempty. -/
def getSetCardsUrl (setCode : String) (page pageSize : Option Int)
    (order : Option String) (priorityChinese : Option Bool) : String :=
  let base := BASE_URL ++ "/set/" ++ encodeURIComponent (jsToUpperCase setCode) ++ "/cards"
  let queryString :=
    urlSearchParamsToString (getSetCardsParams page pageSize order priorityChinese)
  if queryString = "" then base else base ++ "?" ++ queryString

/-- `handleGetSetCards` (src/index.ts:340-365). -/
def handleGetSetCards (setCode : String) (page pageSize : Option Int)
    (order : Option String) (priorityChinese : Option Bool) (env : FetchEnv) :
    Except String ToolCallResult :=
  match env (getSetCardsUrl setCode page pageSize order priorityChinese) with
  | .ok r => handleSbwszResponse r
  | .error e => .error e

/-- The URL `handleHzls` builds (src/index.ts:374-378). -/
def hzlsUrl (targetSentence : String) (cutFullImage withLink : Option Bool) : String :=
  BASE_URL ++ "/hzls?target_sentence=" ++ encodeURIComponent targetSentence
  ++ (match cutFullImage with
      | some b => "&cut_full_image=" ++ (if b then "true" else "false")
      | none => "")
  ++ (match withLink with
      | some b => "&with_link=" ++ (if b then "true" else "false")
      | none => "")

/-- The error result `handleHzls` builds in its catch block
(src/index.ts:417-432): the exception message and the constructed URL. -/
def hzlsCatchResult (e url : String) : ToolCallResult :=
  ⟨[.text ("活字乱刷请求失败: " ++ e),
    .text ("活字乱刷成功生成图片链接：\n" ++ url)], true⟩

/-- `response.headers.get('content-type') || 'image/jpeg'`
(src/index.ts:400): the declared content type when present and truthy
(nonempty), else the default. -/
def hzlsContentType : Option String → String
  | some s => if s = "" then "image/jpeg" else s
  | none => "image/jpeg"

/-- `handleHzls` (src/index.ts:368-433).  Unlike the other handlers it
catches every exception itself and always returns a result:  non-2xx yields
an error text embedding the status and any recoverable body text; 2xx yields
a success notice plus a base64 image item; a fetch or body-read exception
yields the catch-block result carrying the message and the URL. -/
def handleHzls (targetSentence : String) (cutFullImage withLink : Option Bool)
    (env : FetchEnv) : ToolCallResult :=
  let url := hzlsUrl targetSentence cutFullImage withLink
  match env url with
  | .error e => hzlsCatchResult e url
  | .ok r =>
    if r.isOk = false then
      let errorText := match r.textBody with
        | .ok t => t
        | .error _ => ""
      ⟨[.text ("HTTP 错误 " ++ natToString r.status ++ ": " ++ r.statusText ++
        (if errorText ≠ "" then "\n响应内容: " ++ errorText else ""))], true⟩
    else
      match r.bytesBody with
      | .error e => hzlsCatchResult e url
      | .ok bytes =>
        ⟨[.text "活字乱刷成功生成图片",
          .image (base64Encode bytes) (hzlsContentType r.contentType)], false⟩

/-! ### The call-tool dispatcher (src/index.ts:455-521) -/

/-- Lookup of one argument in the request's `arguments` object
(`none` = JavaScript `undefined`). -/
def lookupArg (args : List (String × Json)) (key : String) : Option Json :=
  match args with
  | [] => none
  | (k, v) :: rest =>
    match lookupArg rest key with
    | some r => some r
    | none => if k = key then some v else none

/-- Extraction of a required string argument.  The TypeScript `as` cast
performs no runtime check; the exception modelled here is the `TypeError` the
handler's first string-method call (e.g. `.toUpperCase()`) raises on a
missing or non-string value. -/
def expectString (args : List (String × Json)) (key : String) : Except String String :=
  match lookupArg args key with
  | some (.str s) => .ok s
  | _ => .error (key ++ " is not a string")

/-- Extraction of an optional integer argument (declared `number` in the tool
schema). -/
def expectOptInt (args : List (String × Json)) (key : String) :
    Except String (Option Int) :=
  match lookupArg args key with
  | none => .ok none
  | some (.num n) => .ok (some n)
  | some _ => .error (key ++ " is not an integer")

/-- Extraction of an optional string argument. -/
def expectOptString (args : List (String × Json)) (key : String) :
    Except String (Option String) :=
  match lookupArg args key with
  | none => .ok none
  | some (.str s) => .ok (some s)
  | some _ => .error (key ++ " is not a string")

/-- Extraction of an optional boolean argument. -/
def expectOptBool (args : List (String × Json)) (key : String) :
    Except String (Option Bool) :=
  match lookupArg args key with
  | none => .ok none
  | some (.bool b) => .ok (some b)
  | some _ => .error (key ++ " is not a boolean")

/-- The body of the `CallToolRequestSchema` handler's `try` block: the
`switch` over the tool name (src/index.ts:457-509).  The `set` argument of
`get_card_by_set_and_number` is upper-cased at the call site (line 461);
an unrecognized name falls to the `default` case. -/
def callToolInner (req : ToolCallRequest) (env : FetchEnv) :
    Except String ToolCallResult :=
  if req.name = "get_card_by_set_and_number" then
    match expectString req.arguments "set" with
    | .error e => .error e
    | .ok set =>
      match expectString req.arguments "collector_number" with
      | .error e => .error e
      | .ok num => handleGetCardBySetAndNumber (jsToUpperCase set) num env
  else if req.name = "search_cards" then
    match expectString req.arguments "q" with
    | .error e => .error e
    | .ok q =>
      match expectOptInt req.arguments "page" with
      | .error e => .error e
      | .ok page =>
        match expectOptInt req.arguments "page_size" with
        | .error e => .error e
        | .ok pageSize =>
          match expectOptString req.arguments "order" with
          | .error e => .error e
          | .ok order =>
            match expectOptString req.arguments "unique" with
            | .error e => .error e
            | .ok unique =>
              match expectOptBool req.arguments "priority_chinese" with
              | .error e => .error e
              | .ok priorityChinese =>
                handleSearchCards q page pageSize order unique priorityChinese env
  else if req.name = "get_sets" then
    handleGetSets env
  else if req.name = "get_set" then
    match expectString req.arguments "set_code" with
    | .error e => .error e
    | .ok setCode => handleGetSet setCode env
  else if req.name = "get_set_cards" then
    match expectString req.arguments "set_code" with
    | .error e => .error e
    | .ok setCode =>
      match expectOptInt req.arguments "page" with
      | .error e => .error e
      | .ok page =>
        match expectOptInt req.arguments "page_size" with
        | .error e => .error e
        | .ok pageSize =>
          match expectOptString req.arguments "order" with
          | .error e => .error e
          | .ok order =>
            match expectOptBool req.arguments "priority_chinese" with
            | .error e => .error e
            | .ok priorityChinese =>
              handleGetSetCards setCode page pageSize order priorityChinese env
  else if req.name = "hzls" then
    match expectString req.arguments "target_sentence" with
    | .error e => .error e
    | .ok targetSentence =>
      match expectOptBool req.arguments "cut_full_image" with
      | .error e => .error e
      | .ok cutFullImage =>
        match expectOptBool req.arguments "with_link" with
        | .error e => .error e
        | .ok withLink =>
          .ok (handleHzls targetSentence cutFullImage withLink env)
  else
    .ok ⟨[.text ("错误: 未知的工具名称 \"" ++ req.name ++ "\"")], true⟩

/-- The complete `CallToolRequestSchema` handler (src/index.ts:455-521): the
`catch` wrapping converts any exception into an error-shaped result with the
exception's message. -/
def callToolHandler (req : ToolCallRequest) (env : FetchEnv) : ToolCallResult :=
  match callToolInner req env with
  | .ok r => r
  | .error m => ⟨[.text ("错误: " ++ m)], true⟩

/-! ### The stateless HTTP transport (src/index.ts:527-613) -/

/-- `createErrorResponse` (src/index.ts:527-536): a JSON-RPC error envelope
with the fixed code `-32000` and a freshly generated UUID as `id`.  The UUID
from `randomUUID()` is a parameter of the model. -/
def createErrorResponse (message uuid : String) : Json :=
  .obj (.cons "jsonrpc" (.str "2.0")
    (.cons "error" (.obj (.cons "code" (.num (-32000))
      (.cons "message" (.str message) .nil)))
    (.cons "id" (.str uuid) .nil)))

/-- An inbound HTTP request for the transport model: parsed pathname, method
and raw body. -/
structure HttpRequestIn where
  pathname : String
  method : String
  body : String

/-- What the server writes back: status, headers, body. -/
structure HttpResponseOut where
  status : Nat
  headers : List (String × String)
  body : String
deriving Repr, DecidableEq

/-- The stateless-HTTP request handler of `runServer` (src/index.ts:563-613).
`transport` models `transport.handleRequest` (an exception there is the
`catch` path answering 500, assuming headers were not yet sent); `uuid` is
the value `randomUUID()` would generate for the error envelope of this
request. -/
def mcpHttpHandler (uuid : String) (transport : Json → Except String HttpResponseOut)
    (req : HttpRequestIn) : HttpResponseOut :=
  if req.pathname = "/mcp" then
    if req.method = "POST" then
      match jsonParse req.body with
      | none =>
        ⟨400, [("Content-Type", "application/json")],
          jsonStringifyCompact (createErrorResponse "Invalid JSON" uuid)⟩
      | some jsonBody =>
        match transport jsonBody with
        | .ok out => out
        | .error _ =>
          ⟨500, [("Content-Type", "application/json")],
            jsonStringifyCompact (createErrorResponse "内部服务端错误" uuid)⟩
    else
      ⟨405, [("Content-Type", "application/json"), ("Allow", "POST")],
        jsonStringifyCompact (createErrorResponse "Method Not Allowed" uuid)⟩
  else
    ⟨404, [], jsonStringifyCompact (createErrorResponse "Not Found" uuid)⟩

/-! ### Query-string observation of a URL -/

/-- The characters after the first `?`, if any. -/
def afterQuestion : List Char → Option (List Char)
  | [] => none
  | c :: cs => if c = '?' then some cs else afterQuestion cs

/-- Split on every `&`. -/
def splitOnAmp : List Char → List (List Char)
  | [] => [[]]
  | c :: cs =>
    if c = '&' then [] :: splitOnAmp cs
    else
      match splitOnAmp cs with
      | [] => [[c]]
      | p :: ps => (c :: p) :: ps

/-- The names of the query parameters of a URL: the part of each
`&`-separated piece after the first `?` that precedes its first `=`. -/
def queryParamNames (url : String) : List String :=
  match afterQuestion url.data with
  | none => []
  | some query =>
    (splitOnAmp query).map (fun p => String.mk (p.takeWhile (fun c => c != '=')))

/-- Rendering of `&name=value` query pieces, as the handlers concatenate
them. -/
def renderedParams : List (List Char × List Char) → List Char
  | [] => []
  | (n, v) :: ps => '&' :: (n ++ '=' :: (v ++ renderedParams ps))

/-! ### Substring observation -/

/-- Whether `needle` occurs contiguously in `hay`. -/
def subChars (hay needle : List Char) : Bool :=
  needle.isPrefixOf hay ||
    match hay with
    | [] => false
    | _ :: t => subChars t needle

/-- Whether the string `needle` occurs in the string `hay`. -/
def strContains (hay needle : String) : Bool := subChars hay.data needle.data

/-- Whether a content item is a text item whose text contains `s`. -/
def itemHasText (item : ContentItem) (s : String) : Bool :=
  match item with
  | .text t => strContains t s
  | .image _ _ => false

theorem isPrefixOf_self_append (a b : List Char) : a.isPrefixOf (a ++ b) = true := by
  induction a with
  | nil => simp [List.isPrefixOf]
  | cons c t ih => simpa [List.isPrefixOf] using ih

theorem subChars_append (a s b : List Char) : subChars (a ++ (s ++ b)) s = true := by
  induction a with
  | nil =>
    rw [List.nil_append, subChars.eq_def]
    simp [isPrefixOf_self_append]
  | cons c t ih =>
    rw [List.cons_append, subChars.eq_def]
    simp only [ih]
    simp

theorem strContains_append (pre s post : String) :
    strContains (pre ++ (s ++ post)) s = true := by
  simpa [strContains, String.data_append] using
    subChars_append pre.data s.data post.data

/-! ### Encoded output contains no query metacharacters -/

/-- A character that can never terminate or delimit a query parameter. -/
def qSafe (c : Char) : Prop := c.toNat ≠ 38 ∧ c.toNat ≠ 61 ∧ c.toNat ≠ 63

instance qSafe.decidable (c : Char) : Decidable (qSafe c) := by
  unfold qSafe
  infer_instance

theorem char_toNat_lt_width (c : Char) : c.toNat < 1114112 := by
  rcases c.valid with h | h
  · have := h
    simp [Char.toNat]
    omega
  · have := h.2
    simp [Char.toNat]
    omega

theorem utf8Bytes_lt (n : Nat) (h : n < 1114112) : ∀ b ∈ utf8Bytes n, b < 256 := by
  intro b hb
  rw [utf8Bytes] at hb
  split at hb <;> try (split at hb) <;> try (split at hb)
  all_goals simp at hb
  all_goals omega

theorem hexUpper_toNat (k : Nat) (h : k < 16) :
    (48 ≤ (hexUpper k).toNat ∧ (hexUpper k).toNat ≤ 57) ∨
      (65 ≤ (hexUpper k).toNat ∧ (hexUpper k).toNat ≤ 70) := by
  rw [hexUpper]
  split
  · rw [char_toNat_ofNat _ (by omega)]
    omega
  · rw [char_toNat_ofNat _ (by omega)]
    omega

theorem percentByte_qSafe (b : Nat) (h : b < 256) : ∀ c ∈ percentByte b, qSafe c := by
  intro c hc
  simp [percentByte] at hc
  rcases hc with hc | hc | hc
  · subst hc
    exact ⟨by decide, by decide, by decide⟩
  · subst hc
    rcases hexUpper_toNat (b / 16) (by omega) with h2 | h2 <;>
      exact ⟨by omega, by omega, by omega⟩
  · subst hc
    rcases hexUpper_toNat (b % 16) (by omega) with h2 | h2 <;>
      exact ⟨by omega, by omega, by omega⟩

theorem percentChar_qSafe (c0 : Char) : ∀ c ∈ percentChar c0, qSafe c := by
  intro c hc
  simp [percentChar, List.mem_flatten] at hc
  obtain ⟨b, hb, hcb⟩ := hc
  exact percentByte_qSafe b (utf8Bytes_lt _ (char_toNat_lt_width c0) b hb) c hcb

theorem encodeChars_qSafe (l : List Char) : ∀ c ∈ encodeChars l, qSafe c := by
  induction l with
  | nil =>
    intro c hc
    simp [encodeChars] at hc
  | cons c0 t ih =>
    intro c hc
    rw [encodeChars] at hc
    rcases List.mem_append.mp hc with hc | hc
    · rw [encChar] at hc
      split at hc
      · rename_i hu
        simp at hc
        subst hc
        simp [uriUnreservedChar] at hu
        exact ⟨by omega, by omega, by omega⟩
      · exact percentChar_qSafe c0 c hc
    · exact ih c hc

theorem formEncodeChars_qSafe (l : List Char) : ∀ c ∈ formEncodeChars l, qSafe c := by
  induction l with
  | nil =>
    intro c hc
    simp [formEncodeChars] at hc
  | cons c0 t ih =>
    intro c hc
    rw [formEncodeChars] at hc
    rcases List.mem_append.mp hc with hc | hc
    · rw [formChar] at hc
      split at hc
      · rename_i hu
        simp at hc
        subst hc
        simp [formUnreservedChar] at hu
        exact ⟨by omega, by omega, by omega⟩
      · split at hc
        · simp at hc
          subst hc
          exact ⟨by decide, by decide, by decide⟩
        · exact percentChar_qSafe c0 c hc
    · exact ih c hc

theorem intChars_qSafe (n : Int) : ∀ c ∈ intChars n, qSafe c := by
  intro c hc
  rw [intChars] at hc
  have hdig : ∀ c ∈ natChars n.natAbs, qSafe c := by
    intro c hc
    have := natChars_digits n.natAbs c hc
    simp [isDigitChar] at this
    exact ⟨by omega, by omega, by omega⟩
  split at hc
  · rcases List.mem_cons.mp hc with hc | hc
    · subst hc
      exact ⟨by decide, by decide, by decide⟩
    · exact hdig c hc
  · exact hdig c hc

theorem boolChars_qSafe (b : Bool) :
    ∀ c ∈ (if b then "true" else "false").data, qSafe c := by
  cases b <;> decide

theorem afterQuestion_append (a r : List Char) (h : ∀ c ∈ a, c.toNat ≠ 63) :
    afterQuestion (a ++ '?' :: r) = some r := by
  induction a with
  | nil => rfl
  | cons c t ih =>
    have hc := h c (by simp)
    rw [List.cons_append, afterQuestion,
      if_neg (by intro he; subst he; exact hc rfl)]
    exact ih (fun c hc => h c (by simp [hc]))

theorem afterQuestion_none (a : List Char) (h : ∀ c ∈ a, c.toNat ≠ 63) :
    afterQuestion a = none := by
  induction a with
  | nil => rfl
  | cons c t ih =>
    have hc := h c (by simp)
    rw [afterQuestion, if_neg (by intro he; subst he; exact hc rfl)]
    exact ih (fun c hc => h c (by simp [hc]))

theorem splitOnAmp_no_amp (x : List Char) (h : ∀ c ∈ x, c.toNat ≠ 38) :
    splitOnAmp x = [x] := by
  induction x with
  | nil => rfl
  | cons c t ih =>
    have hc := h c (by simp)
    rw [splitOnAmp, if_neg (by intro he; subst he; exact hc rfl),
      ih (fun c hc => h c (by simp [hc]))]

theorem splitOnAmp_append (x r : List Char) (h : ∀ c ∈ x, c.toNat ≠ 38) :
    splitOnAmp (x ++ '&' :: r) = x :: splitOnAmp r := by
  induction x with
  | nil =>
    rw [List.nil_append, splitOnAmp, if_pos rfl]
  | cons c t ih =>
    have hc := h c (by simp)
    rw [List.cons_append, splitOnAmp, if_neg (by intro he; subst he; exact hc rfl),
      ih (fun c hc => h c (by simp [hc]))]

theorem splitOnAmp_rendered (v0 : List Char) (ps : List (List Char × List Char))
    (hv0 : ∀ c ∈ v0, c.toNat ≠ 38)
    (hps : ∀ p ∈ ps, (∀ c ∈ p.1, c.toNat ≠ 38) ∧ (∀ c ∈ p.2, c.toNat ≠ 38)) :
    splitOnAmp (v0 ++ renderedParams ps) =
      v0 :: ps.map (fun p => p.1 ++ '=' :: p.2) := by
  induction ps generalizing v0 with
  | nil =>
    rw [renderedParams, List.append_nil, splitOnAmp_no_amp v0 hv0]
    rfl
  | cons p ps ih =>
    obtain ⟨n, v⟩ := p
    rw [renderedParams, splitOnAmp_append v0 _ hv0]
    have hnv : ∀ c ∈ n ++ '=' :: v, c.toNat ≠ 38 := by
      intro c hc
      rcases List.mem_append.mp hc with hc | hc
      · exact (hps (n, v) (by simp)).1 c hc
      · rcases List.mem_cons.mp hc with hc | hc
        · subst hc
          decide
        · exact (hps (n, v) (by simp)).2 c hc
    have := ih (n ++ '=' :: v) hnv (fun p hp => hps p (by simp [hp]))
    rw [show n ++ '=' :: (v ++ renderedParams ps) =
        (n ++ '=' :: v) ++ renderedParams ps by simp, this]
    simp

theorem takeWhile_name (n v : List Char) (h : ∀ c ∈ n, c.toNat ≠ 61) :
    (n ++ '=' :: v).takeWhile (fun c => c != '=') = n := by
  apply takeWhile_all_append
  · intro c hc
    have := h c hc
    simp
    intro he
    subst he
    exact this rfl
  · intro c hc
    simp at hc
    rw [← hc]
    decide

/-- A query piece whose name contains no `=`/`&` and whose value contains no
`&`. -/
def goodPiece (p : List Char × List Char) : Prop :=
  (∀ c ∈ p.1, c.toNat ≠ 61 ∧ c.toNat ≠ 38) ∧ (∀ c ∈ p.2, c.toNat ≠ 38)

/-- The optional `&name=value` pieces `searchCardsUrl` appends, in order. -/
def searchParamPieces (page pageSize : Option Int) (order unique : Option String)
    (priorityChinese : Option Bool) : List (List Char × List Char) :=
  (match page with
   | some p => [("page".data, intChars p)]
   | none => [])
  ++ (match pageSize with
      | some p => [("page_size".data, intChars p)]
      | none => [])
  ++ (match order with
      | some o => [("order".data, encodeChars o.data)]
      | none => [])
  ++ (match unique with
      | some u => [("unique".data, encodeChars u.data)]
      | none => [])
  ++ (match priorityChinese with
      | some b => [("priority_chinese".data, (if b then "true" else "false").data)]
      | none => [])

theorem goodPiece_mk (n v : List Char) (hn : ∀ c ∈ n, c.toNat ≠ 61 ∧ c.toNat ≠ 38)
    (hv : ∀ c ∈ v, c.toNat ≠ 38) : goodPiece (n, v) := ⟨hn, hv⟩

theorem searchParamPieces_good (page pageSize : Option Int)
    (order unique : Option String) (pc : Option Bool) :
    ∀ p ∈ searchParamPieces page pageSize order unique pc, goodPiece p := by
  intro p hp
  rw [searchParamPieces.eq_def] at hp
  rcases List.mem_append.mp hp with hp | hp
  · rcases List.mem_append.mp hp with hp | hp
    · rcases List.mem_append.mp hp with hp | hp
      · rcases List.mem_append.mp hp with hp | hp
        · cases page with
          | none => simp at hp
          | some v =>
            simp at hp
            subst hp
            exact goodPiece_mk _ _ (by decide) (fun c hc => (intChars_qSafe v c hc).1)
        · cases pageSize with
          | none => simp at hp
          | some v =>
            simp at hp
            subst hp
            exact goodPiece_mk _ _ (by decide) (fun c hc => (intChars_qSafe v c hc).1)
      · cases order with
        | none => simp at hp
        | some o =>
          simp at hp
          subst hp
          exact goodPiece_mk _ _ (by decide) (fun c hc => (encodeChars_qSafe o.data c hc).1)
    · cases unique with
      | none => simp at hp
      | some u =>
        simp at hp
        subst hp
        exact goodPiece_mk _ _ (by decide) (fun c hc => (encodeChars_qSafe u.data c hc).1)
  · cases pc with
    | none => simp at hp
    | some b =>
      simp at hp
      subst hp
      exact goodPiece_mk _ _ (by decide) (fun c hc => (boolChars_qSafe b c hc).1)

theorem searchCardsUrl_data (q : String) (page pageSize : Option Int)
    (order unique : Option String) (pc : Option Bool) :
    (searchCardsUrl q page pageSize order unique pc).data =
      "https://www.sbwsz.com/api/v1/result".data ++ '?' :: ('q' :: '=' ::
        (encodeChars q.data ++
          renderedParams (searchParamPieces page pageSize order unique pc))) := by
  cases page <;> cases pageSize <;> cases order <;> cases unique <;> cases pc <;>
    simp [searchCardsUrl, searchParamPieces, renderedParams, String.data_append,
      encodeURIComponent, intToString, BASE_URL]

theorem renderedParams_queryNames (v0n v0v : List Char)
    (ps : List (List Char × List Char))
    (hn : ∀ c ∈ v0n, c.toNat ≠ 61 ∧ c.toNat ≠ 38) (hv : ∀ c ∈ v0v, c.toNat ≠ 38)
    (hps : ∀ p ∈ ps, goodPiece p) :
    (splitOnAmp ((v0n ++ '=' :: v0v) ++ renderedParams ps)).map
        (fun p => String.mk (p.takeWhile (fun c => c != '='))) =
      String.mk v0n :: ps.map (fun p => String.mk p.1) := by
  rw [splitOnAmp_rendered (v0n ++ '=' :: v0v) ps
    (by
      intro c hc
      rcases List.mem_append.mp hc with hc | hc
      · exact (hn c hc).2
      · rcases List.mem_cons.mp hc with hc | hc
        · subst hc; decide
        · exact hv c hc)
    (fun p hp => ⟨fun c hc => ((hps p hp).1 c hc).2, (hps p hp).2⟩)]
  rw [List.map_cons, takeWhile_name v0n v0v (fun c hc => (hn c hc).1), List.map_map]
  congr 1
  apply List.map_congr_left
  intro p hp
  simp only [Function.comp]
  rw [takeWhile_name p.1 p.2 (fun c hc => ((hps p hp).1 c hc).1)]

theorem queryParamNames_some (url : String) (q : List Char)
    (h : afterQuestion url.data = some q) :
    queryParamNames url =
      (splitOnAmp q).map (fun p => String.mk (p.takeWhile (fun c => c != '='))) := by
  rw [queryParamNames, h]

theorem queryParamNames_none (url : String) (h : afterQuestion url.data = none) :
    queryParamNames url = [] := by
  rw [queryParamNames, h]

theorem searchCardsUrl_queryNames (q : String) (page pageSize : Option Int)
    (order unique : Option String) (pc : Option Bool) :
    queryParamNames (searchCardsUrl q page pageSize order unique pc) =
      "q" :: (searchParamPieces page pageSize order unique pc).map
        (fun p => String.mk p.1) := by
  rw [queryParamNames_some _ _ (by
    rw [searchCardsUrl_data]
    exact afterQuestion_append _ _ (by decide))]
  rw [show 'q' :: '=' :: (encodeChars q.data ++
      renderedParams (searchParamPieces page pageSize order unique pc)) =
      (['q'] ++ '=' :: encodeChars q.data) ++
      renderedParams (searchParamPieces page pageSize order unique pc) by simp]
  rw [renderedParams_queryNames ['q'] (encodeChars q.data) _ (by decide)
    (fun c hc => (encodeChars_qSafe q.data c hc).1)
    (searchParamPieces_good page pageSize order unique pc)]

/-- The optional `&name=value` pieces `hzlsUrl` appends, in order. -/
def hzlsParamPieces (cutFullImage withLink : Option Bool) :
    List (List Char × List Char) :=
  (match cutFullImage with
   | some b => [("cut_full_image".data, (if b then "true" else "false").data)]
   | none => [])
  ++ (match withLink with
      | some b => [("with_link".data, (if b then "true" else "false").data)]
      | none => [])

theorem hzlsParamPieces_good (cfi wl : Option Bool) :
    ∀ p ∈ hzlsParamPieces cfi wl, goodPiece p := by
  intro p hp
  rw [hzlsParamPieces.eq_def] at hp
  rcases List.mem_append.mp hp with hp | hp
  · cases cfi with
    | none => simp at hp
    | some b =>
      simp at hp
      subst hp
      exact goodPiece_mk _ _ (by decide) (fun c hc => (boolChars_qSafe b c hc).1)
  · cases wl with
    | none => simp at hp
    | some b =>
      simp at hp
      subst hp
      exact goodPiece_mk _ _ (by decide) (fun c hc => (boolChars_qSafe b c hc).1)

theorem hzlsUrl_data (ts : String) (cfi wl : Option Bool) :
    (hzlsUrl ts cfi wl).data =
      "https://www.sbwsz.com/api/v1/hzls".data ++ '?' ::
        ("target_sentence".data ++ '=' ::
          (encodeChars ts.data ++ renderedParams (hzlsParamPieces cfi wl))) := by
  cases cfi <;> cases wl <;>
    simp [hzlsUrl, hzlsParamPieces, renderedParams, String.data_append,
      encodeURIComponent, BASE_URL]

theorem hzlsUrl_queryNames (ts : String) (cfi wl : Option Bool) :
    queryParamNames (hzlsUrl ts cfi wl) =
      "target_sentence" :: (hzlsParamPieces cfi wl).map (fun p => String.mk p.1) := by
  rw [queryParamNames_some _ _ (by
    rw [hzlsUrl_data]
    exact afterQuestion_append _ _ (by decide))]
  rw [show "target_sentence".data ++ '=' ::
      (encodeChars ts.data ++ renderedParams (hzlsParamPieces cfi wl)) =
      ("target_sentence".data ++ '=' :: encodeChars ts.data) ++
        renderedParams (hzlsParamPieces cfi wl) by simp]
  rw [renderedParams_queryNames "target_sentence".data (encodeChars ts.data) _ (by decide)
    (fun c hc => (encodeChars_qSafe ts.data c hc).1)
    (hzlsParamPieces_good cfi wl)]

theorem urlSearchParamsToString_data (k v : String) (ps : List (String × String)) :
    (urlSearchParamsToString ((k, v) :: ps)).data =
      (formEncodeChars k.data ++ '=' :: formEncodeChars v.data) ++
        renderedParams (ps.map (fun kv =>
          (formEncodeChars kv.1.data, formEncodeChars kv.2.data))) := by
  induction ps generalizing k v with
  | nil =>
    simp [urlSearchParamsToString, formEncode, String.data_append, renderedParams]
  | cons kv2 ps ih =>
    obtain ⟨k2, v2⟩ := kv2
    rw [urlSearchParamsToString.eq_def]
    simp only [List.map_cons, renderedParams]
    simp [String.data_append, formEncode, ih k2 v2, renderedParams]

theorem getSetCardsBase_no_question (sc : String) :
    ∀ c ∈ (BASE_URL ++ "/set/" ++ encodeURIComponent (jsToUpperCase sc) ++ "/cards").data,
      c.toNat ≠ 63 := by
  intro c hc
  simp only [String.data_append, encodeURIComponent] at hc
  rcases List.mem_append.mp hc with hc | hc
  · rcases List.mem_append.mp hc with hc | hc
    · rcases List.mem_append.mp hc with hc | hc
      · revert hc
        have : ∀ c ∈ (BASE_URL).data, c.toNat ≠ 63 := by decide
        exact this c
      · revert hc
        have : ∀ c ∈ ("/set/").data, c.toNat ≠ 63 := by decide
        exact this c
    · exact (encodeChars_qSafe _ c hc).2.2
  · revert hc
    have : ∀ c ∈ ("/cards").data, c.toNat ≠ 63 := by decide
    exact this c

theorem getSetCardsParams_good (page pageSize : Option Int) (order : Option String)
    (pc : Option Bool) :
    ∀ p ∈ getSetCardsParams page pageSize order pc,
      goodPiece (formEncodeChars p.1.data, formEncodeChars p.2.data) := by
  intro p hp
  have good : goodPiece (formEncodeChars p.1.data, formEncodeChars p.2.data) := by
    refine ⟨fun c hc => ?_, fun c hc => ?_⟩
    · have := formEncodeChars_qSafe _ c hc
      exact ⟨this.2.1, this.1⟩
    · exact (formEncodeChars_qSafe _ c hc).1
  exact good

theorem getSetCardsUrl_queryNames (sc : String) (page pageSize : Option Int)
    (order : Option String) (pc : Option Bool) :
    queryParamNames (getSetCardsUrl sc page pageSize order pc) =
      (getSetCardsParams page pageSize order pc).map (fun kv => formEncode kv.1) := by
  rcases hps : getSetCardsParams page pageSize order pc with _ | ⟨⟨k1, v1⟩, rest⟩
  · rw [getSetCardsUrl, hps]
    simp only [urlSearchParamsToString, if_true]
    rw [queryParamNames_none _ (afterQuestion_none _ (getSetCardsBase_no_question sc))]
    simp
  · have hne : urlSearchParamsToString ((k1, v1) :: rest) ≠ "" := by
      intro he
      have := congrArg String.data he
      rw [urlSearchParamsToString_data] at this
      simp at this
    rw [getSetCardsUrl, hps]
    simp only [if_neg hne]
    rw [queryParamNames_some _
      ((formEncodeChars k1.data ++ '=' :: formEncodeChars v1.data) ++
        renderedParams (rest.map (fun kv =>
          (formEncodeChars kv.1.data, formEncodeChars kv.2.data))))
      (by
        rw [show ((BASE_URL ++ "/set/" ++ encodeURIComponent (jsToUpperCase sc) ++ "/cards")
            ++ "?" ++ urlSearchParamsToString ((k1, v1) :: rest)).data =
            (BASE_URL ++ "/set/" ++ encodeURIComponent (jsToUpperCase sc) ++ "/cards").data
            ++ '?' :: (urlSearchParamsToString ((k1, v1) :: rest)).data by
          simp [String.data_append]]
        rw [afterQuestion_append _ _ (getSetCardsBase_no_question sc),
          urlSearchParamsToString_data])]
    rw [renderedParams_queryNames (formEncodeChars k1.data) (formEncodeChars v1.data) _
      (fun c hc => by
        have := formEncodeChars_qSafe _ c hc
        exact ⟨this.2.1, this.1⟩)
      (fun c hc => (formEncodeChars_qSafe _ c hc).1)
      (by
        intro p hp
        simp only [List.mem_map] at hp
        obtain ⟨kv, hkv, rfl⟩ := hp
        exact getSetCardsParams_good page pageSize order pc kv (by rw [hps]; simp [hkv]))]
    rw [List.map_map]
    rfl

/-! ### Dispatcher support lemmas -/

theorem handleSbwszResponse_ok_content (r : HttpResp) (res : ToolCallResult)
    (h : handleSbwszResponse r = .ok res) : res.content ≠ [] := by
  rw [handleSbwszResponse] at h
  split at h
  · split at h <;> (simp at h; rw [← h]; simp)
  · split at h
    · simp at h
      rw [← h]
      simp
    · cases h

theorem handleViaSbwsz_content (x : Except String HttpResp) (res : ToolCallResult)
    (h : (match x with
          | .ok r => handleSbwszResponse r
          | .error e => (.error e : Except String ToolCallResult)) = .ok res) :
    res.content ≠ [] := by
  split at h
  · exact handleSbwszResponse_ok_content _ _ h
  · cases h

theorem handleHzls_content (ts : String) (cfi wl : Option Bool) (env : FetchEnv) :
    (handleHzls ts cfi wl env).content ≠ [] := by
  rw [handleHzls]
  split
  · simp [hzlsCatchResult]
  · split
    · simp
    · split
      · simp [hzlsCatchResult]
      · simp

theorem callToolInner_ok_content (req : ToolCallRequest) (env : FetchEnv)
    (res : ToolCallResult) (h : callToolInner req env = .ok res) :
    res.content ≠ [] := by
  rw [callToolInner] at h
  split_ifs at h
  · -- get_card_by_set_and_number
    split at h
    · cases h
    · split at h
      · cases h
      · rw [handleGetCardBySetAndNumber] at h
        exact handleViaSbwsz_content _ _ h
  · -- search_cards
    split at h
    · cases h
    · split at h
      · cases h
      · split at h
        · cases h
        · split at h
          · cases h
          · split at h
            · cases h
            · split at h
              · cases h
              · rw [handleSearchCards] at h
                exact handleViaSbwsz_content _ _ h
  · -- get_sets
    rw [handleGetSets] at h
    exact handleViaSbwsz_content _ _ h
  · -- get_set
    split at h
    · cases h
    · rw [handleGetSet] at h
      exact handleViaSbwsz_content _ _ h
  · -- get_set_cards
    split at h
    · cases h
    · split at h
      · cases h
      · split at h
        · cases h
        · split at h
          · cases h
          · split at h
            · cases h
            · rw [handleGetSetCards] at h
              exact handleViaSbwsz_content _ _ h
  · -- hzls
    split at h
    · cases h
    · split at h
      · cases h
      · split at h
        · cases h
        · simp only [Except.ok.injEq] at h
          rw [← h]
          exact handleHzls_content _ _ _ env
  · -- default
    simp only [Except.ok.injEq] at h
    rw [← h]
    simp

/-- Claim C1: every dispatched call-tool request yields a fully formed
result — the `content` sequence is non-empty (`isError` is a total `Bool`
field, explicit by construction) — and no exception from argument extraction
or the outbound call escapes the dispatch boundary: an inner exception with
message `m` becomes exactly `{isError: true, content: [text ("错误: " ++ m)]}`. -/
theorem dispatcher_boundary (req : ToolCallRequest) (env : FetchEnv) :
    (callToolHandler req env).content ≠ [] ∧
    (∀ m, callToolInner req env = .error m →
      callToolHandler req env = ⟨[.text ("错误: " ++ m)], true⟩) := by
  constructor
  · rw [callToolHandler]
    split
    · rename_i res hres
      exact callToolInner_ok_content req env res hres
    · simp
  · intro m hm
    rw [callToolHandler, hm]

/-- Witness for C1: a concrete request whose argument extraction throws
(`get_set` without a `set_code`) is converted at the boundary. -/
theorem dispatcher_boundary_witness :
    callToolHandler ⟨"get_set", []⟩ (fun _ => Except.error "boom") =
      ⟨[ContentItem.text "错误: set_code is not a string"], true⟩ :=
  (dispatcher_boundary ⟨"get_set", []⟩ (fun _ => Except.error "boom")).2
    "set_code is not a string" rfl

/-- Claim C2: a call-tool request whose name is none of the six registered
tool names returns (never throws) an error result whose single text item
contains the unrecognized name. -/
theorem unknown_tool_soft_error (req : ToolCallRequest) (env : FetchEnv)
    (h : req.name ∉ sbwszToolNames) :
    callToolHandler req env =
      ⟨[.text ("错误: 未知的工具名称 \"" ++ req.name ++ "\"")], true⟩ ∧
    (callToolHandler req env).isError = true ∧
    ∃ item ∈ (callToolHandler req env).content, itemHasText item req.name = true := by
  simp only [sbwszToolNames, List.mem_cons, List.not_mem_nil, or_false, not_or] at h
  obtain ⟨h1, h2, h3, h4, h5, h6⟩ := h
  have heq : callToolHandler req env =
      ⟨[.text ("错误: 未知的工具名称 \"" ++ req.name ++ "\"")], true⟩ := by
    rw [callToolHandler, callToolInner,
      if_neg h1, if_neg h2, if_neg h3, if_neg h4, if_neg h5, if_neg h6]
  refine ⟨heq, by rw [heq], ?_⟩
  rw [heq]
  refine ⟨.text ("错误: 未知的工具名称 \"" ++ req.name ++ "\""), by simp, ?_⟩
  rw [itemHasText, show ("错误: 未知的工具名称 \"" ++ req.name ++ "\"") =
    "错误: 未知的工具名称 \"" ++ (req.name ++ "\"") from (String.append_assoc _ _ _)]
  exact strContains_append _ _ _

/-- Witness for C2 at the concrete unknown name `"not_a_tool"`. -/
theorem unknown_tool_soft_error_witness :
    callToolHandler ⟨"not_a_tool", []⟩ (fun _ => Except.error "boom") =
      ⟨[ContentItem.text "错误: 未知的工具名称 \"not_a_tool\""], true⟩ ∧
    (callToolHandler ⟨"not_a_tool", []⟩ (fun _ => Except.error "boom")).isError = true ∧
    ∃ item ∈ (callToolHandler ⟨"not_a_tool", []⟩ (fun _ => Except.error "boom")).content,
      itemHasText item "not_a_tool" = true :=
  unknown_tool_soft_error ⟨"not_a_tool", []⟩ (fun _ => Except.error "boom") (by decide)

/-- Claim C4: a 2xx remote response with a valid JSON body maps to a
non-error result with exactly one text item holding the body pretty-printed,
and parsing that text back yields the original body exactly. -/
theorem success_json_roundtrip (r : HttpResp) (j : Json)
    (hok : r.isOk = true) (hbody : r.jsonBody = .ok j) :
    handleSbwszResponse r = .ok ⟨[.text (jsonStringify j)], false⟩ ∧
    jsonParse (jsonStringify j) = some j := by
  constructor
  · rw [handleSbwszResponse, hok]
    simp [hbody]
  · exact jsonParse_stringify j

/-- Witness for C4 at a concrete 200 response carrying a small JSON object. -/
theorem success_json_roundtrip_witness :
    handleSbwszResponse
        ⟨200, "OK",
          .ok (.obj (.cons "name" (.str "Boseiju") (.cons "mv" (.num 0) .nil))),
          .ok "", .ok [], none⟩ =
      .ok ⟨[.text (jsonStringify
        (.obj (.cons "name" (.str "Boseiju") (.cons "mv" (.num 0) .nil))))], false⟩ ∧
    jsonParse (jsonStringify
        (.obj (.cons "name" (.str "Boseiju") (.cons "mv" (.num 0) .nil)))) =
      some (.obj (.cons "name" (.str "Boseiju") (.cons "mv" (.num 0) .nil))) :=
  success_json_roundtrip _ _ (by decide) rfl

/-- Decidable equality for `Except`, used to evaluate handler results in
concrete witnesses. -/
instance {e a : Type} [DecidableEq e] [DecidableEq a] : DecidableEq (Except e a) :=
  fun x y =>
  match x, y with
  | .ok u, .ok v =>
    if h : u = v then isTrue (by rw [h]) else isFalse (by intro he; cases he; exact h rfl)
  | .error u, .error v =>
    if h : u = v then isTrue (by rw [h]) else isFalse (by intro he; cases he; exact h rfl)
  | .ok _, .error _ => isFalse (by intro he; cases he)
  | .error _, .ok _ => isFalse (by intro he; cases he)

/-- The non-2xx branch of `handleHzls` as an equation. -/
theorem handleHzls_notOk (ts : String) (cfi wl : Option Bool) (env : FetchEnv)
    (r : HttpResp) (henv : env (hzlsUrl ts cfi wl) = .ok r) (hok : r.isOk = false) :
    handleHzls ts cfi wl env =
      ⟨[.text ("HTTP 错误 " ++ natToString r.status ++ ": " ++ r.statusText ++
        (if (match r.textBody with
             | .ok t => t
             | .error _ => "") ≠ "" then "\n响应内容: " ++ (match r.textBody with
             | .ok t => t
             | .error _ => "") else ""))], true⟩ := by
  rw [handleHzls, henv]
  simp only [hok, if_pos]

/-- Counterexample to claim C3 as stated: a non-2xx response whose JSON body
has a `message` field that is the empty string.  The code tests
`errorObj && errorObj.message` for truthiness, so the empty-string message
falls back to the raw status line instead of the
`"<remote-message> (status: <code>)"` form the claim requires. -/
theorem error_message_claim_counterexample :
    jsMember (Json.obj (.cons "message" (.str "") .nil)) "message" =
      some (.str "") ∧
    handleSbwszResponse
        ⟨500, "Internal Server Error",
          .ok (.obj (.cons "message" (.str "") .nil)), .ok "", .ok [], none⟩ =
      .ok ⟨[.text "HTTP 错误 500: Internal Server Error"], true⟩ ∧
    handleSbwszResponse
        ⟨500, "Internal Server Error",
          .ok (.obj (.cons "message" (.str "") .nil)), .ok "", .ok [], none⟩ ≠
      .ok ⟨[.text ("SBWSZ API 错误: " ++ jsToString (.str "") ++ " (状态码: " ++
        natToString 500 ++ ")")], true⟩ := by
  refine ⟨by decide, by decide, by decide⟩

/-- Claim C3 (amended): on a non-2xx response the shared mapper formats a
truthy `message` member as `"SBWSZ API 错误: <message> (状态码: <code>)"`,
falls back to the raw status line otherwise, and for every status ≥ 400 —
through the shared mapper and through the image tool alike — the result is an
error whose text contains the numeric status. -/
theorem response_error_mapping (r : HttpResp) :
    (r.isOk = false →
      (∀ m, truthyMessage r.jsonBody = some m →
        handleSbwszResponse r = .ok ⟨[.text ("SBWSZ API 错误: " ++ jsToString m ++
          " (状态码: " ++ natToString r.status ++ ")")], true⟩) ∧
      (truthyMessage r.jsonBody = none →
        handleSbwszResponse r = .ok ⟨[.text ("HTTP 错误 " ++ natToString r.status ++
          ": " ++ r.statusText)], true⟩)) ∧
    (400 ≤ r.status →
      ∀ res, handleSbwszResponse r = .ok res →
        res.isError = true ∧
        ∃ item ∈ res.content, itemHasText item (natToString r.status) = true) ∧
    (400 ≤ r.status → ∀ ts cfi wl env, env (hzlsUrl ts cfi wl) = .ok r →
      (handleHzls ts cfi wl env).isError = true ∧
      ∃ item ∈ (handleHzls ts cfi wl env).content,
        itemHasText item (natToString r.status) = true) := by
  refine ⟨fun hok => ⟨fun m hm => ?_, fun hm => ?_⟩, fun hst res hres => ?_,
    fun hst ts cfi wl env henv => ?_⟩
  · rw [handleSbwszResponse, if_pos hok, hm]
  · rw [handleSbwszResponse, if_pos hok, hm]
  · have hok : r.isOk = false := by
      simp [HttpResp.isOk]
      omega
    rw [handleSbwszResponse, if_pos hok] at hres
    split at hres
    · rename_i m hm
      simp only [Except.ok.injEq] at hres
      rw [← hres]
      refine ⟨rfl, ContentItem.text ("SBWSZ API 错误: " ++ jsToString m ++
        " (状态码: " ++ natToString r.status ++ ")"), by simp, ?_⟩
      rw [itemHasText, show "SBWSZ API 错误: " ++ jsToString m ++ " (状态码: " ++
        natToString r.status ++ ")" = ("SBWSZ API 错误: " ++ jsToString m ++
        " (状态码: ") ++ (natToString r.status ++ ")") by
        rw [String.append_assoc]]
      exact strContains_append _ _ _
    · simp only [Except.ok.injEq] at hres
      rw [← hres]
      refine ⟨rfl, ContentItem.text ("HTTP 错误 " ++ natToString r.status ++ ": " ++
        r.statusText), by simp, ?_⟩
      rw [itemHasText, show "HTTP 错误 " ++ natToString r.status ++ ": " ++
        r.statusText = "HTTP 错误 " ++ (natToString r.status ++
        (": " ++ r.statusText)) by
        rw [String.append_assoc, String.append_assoc]]
      exact strContains_append _ _ _
  · have hok : r.isOk = false := by
      simp [HttpResp.isOk]
      omega
    rw [handleHzls_notOk ts cfi wl env r henv hok]
    refine ⟨rfl, ContentItem.text ("HTTP 错误 " ++ natToString r.status ++ ": " ++
      r.statusText ++ (if (match r.textBody with
        | .ok t => t
        | .error _ => "") ≠ "" then "\n响应内容: " ++ (match r.textBody with
        | .ok t => t
        | .error _ => "") else "")), by simp, ?_⟩
    rw [itemHasText, show "HTTP 错误 " ++ natToString r.status ++ ": " ++
      r.statusText ++ (if (match r.textBody with
        | .ok t => t
        | .error _ => "") ≠ "" then "\n响应内容: " ++ (match r.textBody with
        | .ok t => t
        | .error _ => "") else "") = "HTTP 错误 " ++ (natToString r.status ++
      (": " ++ (r.statusText ++ (if (match r.textBody with
        | .ok t => t
        | .error _ => "") ≠ "" then "\n响应内容: " ++ (match r.textBody with
        | .ok t => t
        | .error _ => "") else "")))) by
      rw [String.append_assoc, String.append_assoc, String.append_assoc]]
    exact strContains_append _ _ _

/-- Witness for C3 (amended) at concrete 404 responses with and without a
truthy message, and a 404 for the image tool. -/
theorem response_error_mapping_witness :
    handleSbwszResponse
        ⟨404, "Not Found",
          .ok (.obj (.cons "message" (.str "卡牌未找到") .nil)), .ok "", .ok [], none⟩ =
      .ok ⟨[.text ("SBWSZ API 错误: " ++ jsToString (.str "卡牌未找到") ++
        " (状态码: " ++ natToString 404 ++ ")")], true⟩ ∧
    (handleHzls "hi" none none
        (fun _ => .ok ⟨404, "Not Found", .error "x", .ok "", .ok [], none⟩)).isError =
      true := by
  constructor
  · exact ((response_error_mapping _).1 (by decide)).1 _ rfl
  · exact ((response_error_mapping
      ⟨404, "Not Found", .error "x", .ok "", .ok [], none⟩).2.2 (by decide)
      "hi" none none _ rfl).1

/-- Counterexample to claim C7 as stated: a 2xx image response whose
`content-type` header is present but empty.  The code computes
`headers.get('content-type') || 'image/jpeg'`, and the empty string is falsy,
so the emitted mimeType is `image/jpeg`, not the declared (empty) content
type. -/
theorem hzls_contentType_claim_counterexample :
    (⟨200, "OK", .error "binary", .ok "", .ok [255, 0, 16],
        some ""⟩ : HttpResp).contentType = some "" ∧
    handleHzls "hi" none none
        (fun _ => .ok ⟨200, "OK", .error "binary", .ok "", .ok [255, 0, 16], some ""⟩) =
      ⟨[.text "活字乱刷成功生成图片",
        .image (base64Encode [255, 0, 16]) "image/jpeg"], false⟩ ∧
    handleHzls "hi" none none
        (fun _ => .ok ⟨200, "OK", .error "binary", .ok "", .ok [255, 0, 16], some ""⟩) ≠
      ⟨[.text "活字乱刷成功生成图片",
        .image (base64Encode [255, 0, 16]) ""], false⟩ := by
  refine ⟨rfl, by decide, by decide⟩

/-- Claim C7 (amended): a 2xx response to `hzls` whose binary body reads
successfully yields a non-error result with exactly two content items in
order — a success text notice, then an image item whose data is the base64
encoding of the body bytes and whose mimeType is the declared content type,
defaulting to `image/jpeg` when the content-type header is absent or empty. -/
theorem hzls_success_shape (ts : String) (cfi wl : Option Bool) (env : FetchEnv)
    (r : HttpResp) (bytes : List Nat)
    (henv : env (hzlsUrl ts cfi wl) = .ok r) (hok : r.isOk = true)
    (hbytes : r.bytesBody = .ok bytes) :
    handleHzls ts cfi wl env =
      ⟨[.text "活字乱刷成功生成图片",
        .image (base64Encode bytes) (hzlsContentType r.contentType)], false⟩ ∧
    (∀ s, r.contentType = some s → s ≠ "" → hzlsContentType r.contentType = s) ∧
    ((r.contentType = none ∨ r.contentType = some "") →
      hzlsContentType r.contentType = "image/jpeg") := by
  refine ⟨?_, fun s hs hne => ?_, fun hd => ?_⟩
  · rw [handleHzls, henv]
    simp [hok, hbytes]
  · rw [hs, hzlsContentType, if_neg hne]
  · rcases hd with hd | hd <;> rw [hd] <;> rfl

/-- Witness for C7 (amended) at a concrete 200 response with three bytes and
content type `image/png`. -/
theorem hzls_success_shape_witness :
    handleHzls "你好" (some true) none
        (fun _ => .ok ⟨200, "OK", .error "binary", .ok "", .ok [1, 2, 3],
          some "image/png"⟩) =
      ⟨[.text "活字乱刷成功生成图片",
        .image (base64Encode [1, 2, 3]) (hzlsContentType (some "image/png"))], false⟩ :=
  (hzls_success_shape "你好" (some true) none _ _ [1, 2, 3] rfl (by decide) rfl).1

/-- Claim C8: a network-level exception during `hzls` is caught inside the
handler and yields an error result whose two text items carry the exception
message and the fully constructed request URL; for the other handlers, the
same total network failure surfaces through the dispatcher as
`错误: <message>` only, without the URL (shown at a concrete instance:
the result text does not even contain the base URL's scheme). -/
theorem hzls_network_error_echoes_url (ts : String) (cfi wl : Option Bool)
    (env : FetchEnv) (e : String)
    (henv : env (hzlsUrl ts cfi wl) = .error e) :
    (handleHzls ts cfi wl env =
      ⟨[.text ("活字乱刷请求失败: " ++ e),
        .text ("活字乱刷成功生成图片链接：\n" ++ hzlsUrl ts cfi wl)], true⟩ ∧
     ∃ item ∈ (handleHzls ts cfi wl env).content,
       itemHasText item (hzlsUrl ts cfi wl) = true) ∧
    (∀ setCode envAll m, (∀ u, envAll u = Except.error m) →
      callToolHandler ⟨"get_set", [("set_code", .str setCode)]⟩ envAll =
        ⟨[.text ("错误: " ++ m)], true⟩) ∧
    (callToolHandler ⟨"get_set", [("set_code", .str "NEO")]⟩
        (fun _ => Except.error "boom") =
      ⟨[.text "错误: boom"], true⟩ ∧
     strContains "错误: boom" "https" = false) := by
  refine ⟨⟨?_, ?_⟩, fun setCode envAll m hAll => ?_, by decide, by decide⟩
  · rw [handleHzls, henv]
    rfl
  · rw [handleHzls, henv]
    refine ⟨.text ("活字乱刷成功生成图片链接：\n" ++ hzlsUrl ts cfi wl), by simp [hzlsCatchResult], ?_⟩
    rw [itemHasText, show "活字乱刷成功生成图片链接：\n" ++ hzlsUrl ts cfi wl =
      "活字乱刷成功生成图片链接：\n" ++ (hzlsUrl ts cfi wl ++ "") by simp]
    exact strContains_append _ _ _
  · rw [callToolHandler, callToolInner]
    simp only [reduceIte]
    rw [show expectString [("set_code", Json.str setCode)] "set_code" =
      .ok setCode from rfl]
    simp [handleGetSet.eq_def, hAll]

/-- Witness for C8 at a concrete sentence and failure message. -/
theorem hzls_network_error_echoes_url_witness :
    handleHzls "hi" none none (fun _ => Except.error "socket hang up") =
      ⟨[.text ("活字乱刷请求失败: " ++ "socket hang up"),
        .text ("活字乱刷成功生成图片链接：\n" ++ hzlsUrl "hi" none none)], true⟩ :=
  ((hzls_network_error_echoes_url "hi" none none _ "socket hang up" rfl).1).1

/-- Claim C5: optional arguments that are omitted never appear as query
parameters of the constructed outbound URL — for `search_cards` (only `q`
remains), `get_set_cards` (no query string at all when everything is
omitted) and `hzls` (only `target_sentence` remains); and each omitted
optional's name is absent from the query regardless of which other optionals
are present. -/
theorem omitted_optionals_not_sent :
    (∀ q, queryParamNames (searchCardsUrl q none none none none none) = ["q"]) ∧
    (∀ q page pageSize order unique pc,
      (page = none →
        "page" ∉ queryParamNames (searchCardsUrl q page pageSize order unique pc)) ∧
      (pageSize = none →
        "page_size" ∉ queryParamNames (searchCardsUrl q page pageSize order unique pc)) ∧
      (order = none →
        "order" ∉ queryParamNames (searchCardsUrl q page pageSize order unique pc)) ∧
      (unique = none →
        "unique" ∉ queryParamNames (searchCardsUrl q page pageSize order unique pc)) ∧
      (pc = none →
        "priority_chinese" ∉
          queryParamNames (searchCardsUrl q page pageSize order unique pc))) ∧
    (∀ sc, queryParamNames (getSetCardsUrl sc none none none none) = []) ∧
    (∀ sc page pageSize order pc,
      (page = none →
        "page" ∉ queryParamNames (getSetCardsUrl sc page pageSize order pc)) ∧
      (pageSize = none →
        "page_size" ∉ queryParamNames (getSetCardsUrl sc page pageSize order pc)) ∧
      (order = none →
        "order" ∉ queryParamNames (getSetCardsUrl sc page pageSize order pc)) ∧
      (pc = none →
        "priority_chinese" ∉ queryParamNames (getSetCardsUrl sc page pageSize order pc))) ∧
    (∀ ts, queryParamNames (hzlsUrl ts none none) = ["target_sentence"]) ∧
    (∀ ts cfi wl,
      (cfi = none → "cut_full_image" ∉ queryParamNames (hzlsUrl ts cfi wl)) ∧
      (wl = none → "with_link" ∉ queryParamNames (hzlsUrl ts cfi wl))) := by
  have hfe1 : formEncode "page" = "page" := rfl
  have hfe2 : formEncode "page_size" = "page_size" := rfl
  have hfe3 : formEncode "order" = "order" := rfl
  have hfe4 : formEncode "priority_chinese" = "priority_chinese" := rfl
  refine ⟨fun q => ?_, fun q page pageSize order unique pc => ?_, fun sc => ?_,
    fun sc page pageSize order pc => ?_, fun ts => ?_, fun ts cfi wl => ?_⟩
  · rw [searchCardsUrl_queryNames]
    rfl
  · refine ⟨fun hp => ?_, fun hp => ?_, fun hp => ?_, fun hp => ?_, fun hp => ?_⟩ <;>
      (subst hp; rw [searchCardsUrl_queryNames]) <;>
      (first
        | (cases page <;> cases pageSize <;> cases order <;> cases unique <;>
            simp [searchParamPieces, String_mk_data]
          <;> decide)
        | (cases page <;> cases pageSize <;> cases order <;> cases pc <;>
            simp [searchParamPieces, String_mk_data]
          <;> decide)
        | (cases page <;> cases pageSize <;> cases unique <;> cases pc <;>
            simp [searchParamPieces, String_mk_data]
          <;> decide)
        | (cases page <;> cases order <;> cases unique <;> cases pc <;>
            simp [searchParamPieces, String_mk_data]
          <;> decide)
        | (cases pageSize <;> cases order <;> cases unique <;> cases pc <;>
            simp [searchParamPieces, String_mk_data]
          <;> decide))
  · rw [getSetCardsUrl_queryNames]
    rfl
  · refine ⟨fun hp => ?_, fun hp => ?_, fun hp => ?_, fun hp => ?_⟩ <;>
      (subst hp; rw [getSetCardsUrl_queryNames]) <;>
      (first
        | (cases page <;> cases pageSize <;> cases order <;>
            simp [getSetCardsParams, hfe1, hfe2, hfe3, hfe4]
          <;> decide)
        | (cases page <;> cases pageSize <;> cases pc <;>
            simp [getSetCardsParams, hfe1, hfe2, hfe3, hfe4]
          <;> decide)
        | (cases page <;> cases order <;> cases pc <;>
            simp [getSetCardsParams, hfe1, hfe2, hfe3, hfe4]
          <;> decide)
        | (cases pageSize <;> cases order <;> cases pc <;>
            simp [getSetCardsParams, hfe1, hfe2, hfe3, hfe4]
          <;> decide))
  · rw [hzlsUrl_queryNames]
    rfl
  · refine ⟨fun hp => ?_, fun hp => ?_⟩ <;>
      (subst hp; rw [hzlsUrl_queryNames]) <;>
      (first
        | (cases cfi <;> simp [hzlsParamPieces, String_mk_data] <;> decide)
        | (cases wl <;> simp [hzlsParamPieces, String_mk_data] <;> decide))

/-- Witness for C5: concrete instantiations of the omission guarantees. -/
theorem omitted_optionals_not_sent_witness :
    queryParamNames (searchCardsUrl "t:creature" none none none none none) = ["q"] ∧
    "unique" ∉ queryParamNames
      (searchCardsUrl "t:creature" (some 2) (some 50) (some "name") none (some true)) ∧
    queryParamNames (getSetCardsUrl "neo" none none none none) = [] ∧
    "page" ∉ queryParamNames (getSetCardsUrl "neo" none (some 30) (some "-mv") none) ∧
    queryParamNames (hzlsUrl "你好" none none) = ["target_sentence"] ∧
    "with_link" ∉ queryParamNames (hzlsUrl "你好" (some false) none) :=
  ⟨omitted_optionals_not_sent.1 "t:creature",
   (omitted_optionals_not_sent.2.1 "t:creature" (some 2) (some 50) (some "name") none
     (some true)).2.2.2.1 rfl,
   omitted_optionals_not_sent.2.2.1 "neo",
   (omitted_optionals_not_sent.2.2.2.1 "neo" none (some 30) (some "-mv") none).1 rfl,
   omitted_optionals_not_sent.2.2.2.2.1 "你好",
   (omitted_optionals_not_sent.2.2.2.2.2 "你好" (some false) none).2 rfl⟩

/-! ### Upper-casing lemmas -/

theorem jsUpperChar_idem (c : Char) : jsUpperChar (jsUpperChar c) = jsUpperChar c := by
  by_cases h : 97 ≤ c.toNat ∧ c.toNat ≤ 122
  · have h1 : jsUpperChar c = Char.ofNat (c.toNat - 32) := by
      rw [jsUpperChar, if_pos (by simp [h.1, h.2])]
    have ht : (Char.ofNat (c.toNat - 32)).toNat = c.toNat - 32 :=
      char_toNat_ofNat _ (by omega)
    rw [h1, jsUpperChar, if_neg (by rw [ht]; simp; omega)]
  · have h1 : jsUpperChar c = c := by
      rw [jsUpperChar, if_neg (by simpa using h)]
    rw [h1, h1]

theorem jsToUpperCase_idem (s : String) :
    jsToUpperCase (jsToUpperCase s) = jsToUpperCase s := by
  rw [jsToUpperCase, jsToUpperCase]
  simp only [List.map_map]
  congr 1
  apply List.map_congr_left
  intro c _
  simp only [Function.comp]
  exact jsUpperChar_idem c

theorem jsToUpperCase_no_lower (s : String) :
    ∀ c ∈ (jsToUpperCase s).data, ¬(97 ≤ c.toNat ∧ c.toNat ≤ 122) := by
  intro c hc
  rw [jsToUpperCase] at hc
  simp only [List.mem_map] at hc
  obtain ⟨c0, _, rfl⟩ := hc
  rw [jsUpperChar]
  split
  · rename_i h
    simp at h
    rw [char_toNat_ofNat _ (by omega)]
    omega
  · rename_i h
    simp at h
    omega

theorem percentChar_no_lower (c0 : Char) :
    ∀ c ∈ percentChar c0, ¬(97 ≤ c.toNat ∧ c.toNat ≤ 122) := by
  intro c hc
  simp [percentChar, List.mem_flatten] at hc
  obtain ⟨b, hb, hcb⟩ := hc
  have hblt := utf8Bytes_lt _ (char_toNat_lt_width c0) b hb
  simp [percentByte] at hcb
  rcases hcb with hcb | hcb | hcb
  · subst hcb
    decide
  · subst hcb
    rcases hexUpper_toNat (b / 16) (by omega) with h2 | h2 <;> omega
  · subst hcb
    rcases hexUpper_toNat (b % 16) (by omega) with h2 | h2 <;> omega

theorem encodeChars_no_lower (l : List Char) :
    (∀ c ∈ l, ¬(97 ≤ c.toNat ∧ c.toNat ≤ 122)) →
    ∀ c ∈ encodeChars l, ¬(97 ≤ c.toNat ∧ c.toNat ≤ 122) := by
  induction l with
  | nil =>
    intro _ c hc
    simp [encodeChars] at hc
  | cons c0 t ih =>
    intro hl c hc
    rw [encodeChars] at hc
    rcases List.mem_append.mp hc with hc | hc
    · rw [encChar] at hc
      split at hc
      · simp at hc
        subst hc
        exact hl _ (List.mem_cons_self _ _)
      · exact percentChar_no_lower c0 c hc
    · exact ih (fun c hc => hl c (by simp [hc])) c hc

/-- Claim C6: `get_set` and `get_set_cards` upper-case the supplied set code
before URL-escaping it into the outbound path: the URL is invariant under
pre-upper-casing the input, the escaped path segment contains no lower-case
ASCII letter, and the input `"neo"` concretely yields the path segment
`NEO`. -/
theorem set_code_uppercased (s : String) :
    getSetUrl s = getSetUrl (jsToUpperCase s) ∧
    (∀ page pageSize order pc, getSetCardsUrl s page pageSize order pc =
      getSetCardsUrl (jsToUpperCase s) page pageSize order pc) ∧
    (∀ c ∈ (encodeURIComponent (jsToUpperCase s)).data,
      ¬(97 ≤ c.toNat ∧ c.toNat ≤ 122)) ∧
    getSetUrl "neo" = "https://www.sbwsz.com/api/v1/set/NEO" ∧
    getSetCardsUrl "neo" none none none none =
      "https://www.sbwsz.com/api/v1/set/NEO/cards" := by
  refine ⟨?_, fun page pageSize order pc => ?_, ?_, by decide, by decide⟩
  · rw [getSetUrl, getSetUrl, jsToUpperCase_idem]
  · rw [getSetCardsUrl, getSetCardsUrl, jsToUpperCase_idem]
  · intro c hc
    rw [encodeURIComponent] at hc
    exact encodeChars_no_lower _ (jsToUpperCase_no_lower s) c hc

/-- Witness for C6 at the concrete mixed-case input `"nEo"`. -/
theorem set_code_uppercased_witness :
    getSetUrl "nEo" = getSetUrl (jsToUpperCase "nEo") ∧
    getSetUrl "neo" = "https://www.sbwsz.com/api/v1/set/NEO" :=
  ⟨(set_code_uppercased "nEo").1, (set_code_uppercased "nEo").2.2.2.1⟩

/-- Claim C10: when dispatching `get_card_by_set_and_number` the `set`
argument is upper-cased before the URL is built — the dispatched result is
invariant under case changes of `set`, and with an environment that echoes
the requested URL as an error message, the fetched URL is exactly
`.../card/<UPPER(set)>/<collector_number>` — while `collector_number` keeps
its case (`"1a"` and `"1A"` produce different URLs). -/
theorem get_card_set_uppercased :
    (∀ s s2 n env, jsToUpperCase s = jsToUpperCase s2 →
      callToolHandler ⟨"get_card_by_set_and_number",
        [("set", .str s), ("collector_number", .str n)]⟩ env =
      callToolHandler ⟨"get_card_by_set_and_number",
        [("set", .str s2), ("collector_number", .str n)]⟩ env) ∧
    (∀ s n, callToolHandler ⟨"get_card_by_set_and_number",
        [("set", .str s), ("collector_number", .str n)]⟩
        (fun u => Except.error u) =
      ⟨[.text ("错误: " ++ getCardUrl (jsToUpperCase s) n)], true⟩) ∧
    callToolHandler ⟨"get_card_by_set_and_number",
        [("set", .str "neo"), ("collector_number", .str "1a")]⟩
        (fun u => Except.error u) =
      ⟨[.text "错误: https://www.sbwsz.com/api/v1/card/NEO/1a"], true⟩ ∧
    callToolHandler ⟨"get_card_by_set_and_number",
        [("set", .str "neo"), ("collector_number", .str "1a")]⟩
        (fun u => Except.error u) ≠
      callToolHandler ⟨"get_card_by_set_and_number",
        [("set", .str "neo"), ("collector_number", .str "1A")]⟩
        (fun u => Except.error u) := by
  refine ⟨fun s s2 n env hupper => ?_, fun s n => ?_, by decide, by decide⟩
  · show (match handleGetCardBySetAndNumber (jsToUpperCase s) n env with
          | .ok r => r
          | .error m => ⟨[.text ("错误: " ++ m)], true⟩) =
        (match handleGetCardBySetAndNumber (jsToUpperCase s2) n env with
          | .ok r => r
          | .error m => ⟨[.text ("错误: " ++ m)], true⟩)
    rw [hupper]
  · show (match handleGetCardBySetAndNumber (jsToUpperCase s) n (fun u => Except.error u) with
          | .ok r => r
          | .error m => ⟨[.text ("错误: " ++ m)], true⟩) = _
    rw [show handleGetCardBySetAndNumber (jsToUpperCase s) n (fun u => Except.error u) =
      .error (getCardUrl (jsToUpperCase s) n) from rfl]

/-- Witness for C10: the case-invariance at the concrete inputs `"neo"` and
`"NEO"`. -/
theorem get_card_set_uppercased_witness :
    callToolHandler ⟨"get_card_by_set_and_number",
        [("set", .str "neo"), ("collector_number", .str "1a")]⟩
        (fun u => Except.error u) =
      callToolHandler ⟨"get_card_by_set_and_number",
        [("set", .str "NEO"), ("collector_number", .str "1a")]⟩
        (fun u => Except.error u) :=
  get_card_set_uppercased.1 "neo" "NEO" "1a" (fun u => Except.error u) (by decide)

/-- Claim C9: in stateless HTTP mode, a POST to `/mcp` whose body fails to
parse as JSON is answered with HTTP 400 and the JSON-RPC-shaped envelope
carrying error code `-32000` and the freshly generated (non-null) UUID as
`id`, and the MCP transport is never invoked — the answer is independent of
the transport. -/
theorem stateless_http_invalid_json (uuid body : String)
    (transport : Json → Except String HttpResponseOut)
    (h : jsonParse body = none) :
    mcpHttpHandler uuid transport ⟨"/mcp", "POST", body⟩ =
      ⟨400, [("Content-Type", "application/json")],
        jsonStringifyCompact (createErrorResponse "Invalid JSON" uuid)⟩ ∧
    (∀ transport2, mcpHttpHandler uuid transport2 ⟨"/mcp", "POST", body⟩ =
      mcpHttpHandler uuid transport ⟨"/mcp", "POST", body⟩) ∧
    jsMember (createErrorResponse "Invalid JSON" uuid) "id" = some (.str uuid) ∧
    Json.str uuid ≠ Json.null ∧
    jsMember (createErrorResponse "Invalid JSON" uuid) "error" =
      some (.obj (.cons "code" (.num (-32000))
        (.cons "message" (.str "Invalid JSON") .nil))) := by
  have hmain : ∀ t2 : Json → Except String HttpResponseOut,
      mcpHttpHandler uuid t2 ⟨"/mcp", "POST", body⟩ =
      ⟨400, [("Content-Type", "application/json")],
        jsonStringifyCompact (createErrorResponse "Invalid JSON" uuid)⟩ := by
    intro t2
    rw [mcpHttpHandler]
    simp [h]
  refine ⟨hmain transport, fun t2 => ?_, rfl, ?_, rfl⟩
  · rw [hmain t2, hmain transport]
  · intro he
    cases he

/-- Witness for C9 at the concrete malformed body `"not json"`. -/
theorem stateless_http_invalid_json_witness :
    mcpHttpHandler "3f1d" (fun _ => Except.error "unused") ⟨"/mcp", "POST", "not json"⟩ =
      ⟨400, [("Content-Type", "application/json")],
        jsonStringifyCompact (createErrorResponse "Invalid JSON" "3f1d")⟩ :=
  (stateless_http_invalid_json "3f1d" "not json" (fun _ => Except.error "unused")
    (by decide)).1
